import Mathlib

/-!
Verification of the accounting-copilot core pipeline.

The TypeScript sources are embedded shallowly:
* JS numbers are modelled as exact rationals; the pervasive
  `round2(n) = Math.round(n * 100) / 100` becomes exact rational rounding
  (JS `Math.round x = ⌊x + 1/2⌋`).
* Strings are Lean strings, processed as their character lists; the small
  fixed regexes of the source are implemented as direct scanners with the
  same greedy/backtracking semantics on those patterns.
* `new Date()` (the current date) and `Math.random()` (used only by
  `makeId`) are threaded as explicit parameters, making every function a
  pure function of its inputs.
-/

namespace AccCopilot

/-- `round2` from the sources: `Math.round(n * 100) / 100`, exactly on ℚ.
JS `Math.round x` is `⌊x + 1/2⌋`. -/
def round2 (n : ℚ) : ℚ := (⌊n * 100 + 1 / 2⌋ : ℤ) / 100

/-- A rational that is a whole number of cents (the range of `round2`). -/
def Cent (x : ℚ) : Prop := ∃ k : ℤ, x = (k : ℚ) / 100

theorem cent_round2 (x : ℚ) : Cent (round2 x) := ⟨_, rfl⟩

theorem round2_intCast_div_add (k : ℤ) (y : ℚ) :
    round2 ((k : ℚ) / 100 + y) = (k : ℚ) / 100 + round2 y := by
  unfold round2
  have h : ((k : ℚ) / 100 + y) * 100 + 1 / 2 = (y * 100 + 1 / 2) + (k : ℚ) := by
    ring
  rw [h, Int.floor_add_int]
  push_cast
  ring

theorem cent_add_round2 {x : ℚ} (hx : Cent x) (y : ℚ) :
    round2 (x + y) = x + round2 y := by
  obtain ⟨k, rfl⟩ := hx
  exact round2_intCast_div_add k y

-- ---------------------------------------------------------------------------
-- Characters and strings
-- ---------------------------------------------------------------------------

/-- The characters of a string. -/
def chars (s : String) : List Char := s.data

/-- Rebuild a string from characters. -/
def str (l : List Char) : String := ⟨l⟩

/-- JS regex `\s` (the whitespace characters that occur in practice). -/
def isJsSpace (c : Char) : Bool :=
  c == ' ' || c == '\t' || c == '\n' || c == '\r'

/-- JS regex word character `\w` : `[A-Za-z0-9_]`. -/
def isWordChar (c : Char) : Bool := c.isAlphanum || c == '_'

def isDigitChar (c : Char) : Bool := c.isDigit

/-- `[a-zA-Z]`. -/
def isAsciiAlpha (c : Char) : Bool := c.isAlpha

/-- `trim`: strip leading and trailing whitespace. -/
def trimChars (l : List Char) : List Char :=
  ((l.dropWhile isJsSpace).reverse.dropWhile isJsSpace).reverse

def trimS (s : String) : String := str (trimChars (chars s))

def lower (l : List Char) : List Char := l.map Char.toLower

/-- Does `hay` start with `needle`? -/
def startsWithL : List Char → List Char → Bool
  | _, [] => true
  | [], _ :: _ => false
  | h :: hs, n :: ns => h == n && startsWithL hs ns

/-- JS `String.prototype.includes` (substring containment). -/
def containsSub (needle : List Char) : List Char → Bool
  | [] => startsWithL [] needle
  | c :: hs => startsWithL (c :: hs) needle || containsSub needle hs

/-- Substring containment on strings (`memo.includes(marker)`). -/
def strIncludes (hay needle : String) : Bool := containsSub (chars needle) (chars hay)

/-- Split into maximal runs of characters not satisfying `p`, dropping
empty pieces (the sources always trim and filter empties right after
splitting, so only the nonempty pieces matter). -/
def fieldsByAux (p : Char → Bool) : List Char → List Char → List (List Char)
  | [], acc => if acc.isEmpty then [] else [acc.reverse]
  | c :: rest, acc =>
    if p c then
      if acc.isEmpty then fieldsByAux p rest []
      else acc.reverse :: fieldsByAux p rest []
    else fieldsByAux p rest (c :: acc)

def fieldsBy (p : Char → Bool) (l : List Char) : List (List Char) :=
  fieldsByAux p l []

/-- Digits at the front of a list; returns (digit run, rest). -/
def digitRun : List Char → List Char × List Char
  | [] => ([], [])
  | c :: rest =>
    if c.isDigit then
      let p := digitRun rest
      (c :: p.1, p.2)
    else ([], c :: rest)

/-- Numeric value of a decimal digit list. -/
def digitsToNat (l : List Char) : ℕ :=
  l.foldl (fun a c => a * 10 + (c.toNat - 48)) 0

-- ---------------------------------------------------------------------------
-- Account resolver scoring (src/components/CopilotComposer.tsx)
-- ---------------------------------------------------------------------------

/-- Whitespace-collapsing step of `normalizeName` (`replace(/\s+/g, " ")`). -/
def collapseWsAux : Bool → List Char → List Char
  | _, [] => []
  | prevWs, c :: rest =>
    if isJsSpace c then
      if prevWs then collapseWsAux true rest else ' ' :: collapseWsAux true rest
    else c :: collapseWsAux false rest

def collapseWs (l : List Char) : List Char := collapseWsAux false l

/-- `normalizeName` from CopilotComposer: lowercase, `&`→"and", replace
characters outside `[a-z0-9\s/]` by a space, collapse whitespace, trim. -/
def normalizeChars (l : List Char) : List Char :=
  let lowered := lower l
  let anded := lowered.flatMap (fun c => if c == '&' then ['a', 'n', 'd'] else [c])
  let kept := anded.map (fun c =>
    if c.isLower || isDigitChar c || isJsSpace c || c == '/' then c else ' ')
  trimChars (collapseWs kept)

def normalizeName (s : String) : String := str (normalizeChars (chars s))

/-- Stop words removed by `tokens`. -/
def stopWords : List (List Char) :=
  [chars "a", chars "an", chars "the", chars "of", chars "for", chars "to",
   chars "and", chars "in", chars "on"]

/-- `tokens` from CopilotComposer: normalize, split on `[\s/]+`, drop
empties and stop words. -/
def tokensOf (l : List Char) : List (List Char) :=
  (fieldsBy (fun c => isJsSpace c || c == '/') (normalizeChars l)).filter
    (fun t => !stopWords.contains t)

/-- One row update of the Levenshtein dynamic program, mirroring the inner
loop of `levenshtein` in CopilotComposer (`dp` row with threaded diagonal
`prev` and the freshly written `dp[j-1]` as `left`). -/
def levRow (ca : Char) : List Char → List ℕ → ℕ → ℕ → List ℕ
  | [], _, _, _ => []
  | _ :: _, [], _, _ => []
  | cb :: bs, dj :: drest, prevDiag, left =>
    let cost : ℕ := if ca == cb then 0 else 1
    let cur := min (min (dj + 1) (left + 1)) (prevDiag + cost)
    cur :: levRow ca bs drest dj cur

/-- `levenshtein` from CopilotComposer (row dynamic program). -/
def levenshtein (a b : List Char) : ℕ :=
  if a.length = 0 then b.length
  else if b.length = 0 then a.length
  else
    let init : List ℕ := List.range (b.length + 1)
    let final := a.foldl
      (fun (st : List ℕ × ℕ) ca =>
        match st with
        | (d0 :: drest, i) => ((i + 1) :: levRow ca b drest d0 (i + 1), i + 1)
        | ([], i) => ([], i + 1))
      (init, 0)
    (final.1.getLast?).getD 0

/-- `similarity` from CopilotComposer: 1 on normalized equality, 0.92 on
substring containment, else
`max (jaccard*0.75 + editSim*0.25) (editSim*0.85)`. -/
def similarity (a b : String) : ℚ :=
  let na := normalizeChars (chars a)
  let nb := normalizeChars (chars b)
  if na.isEmpty || nb.isEmpty then 0
  else if na = nb then 1
  else if containsSub nb na || containsSub na nb then 92 / 100
  else
    let ta := (tokensOf na).dedup
    let tb := (tokensOf nb).dedup
    let inter := (ta.filter (fun x => tb.contains x)).length
    let union := ta.length + tb.length - inter
    let jaccard : ℚ := if union = 0 then 0 else (inter : ℚ) / (union : ℚ)
    let dist := levenshtein na nb
    let editSim : ℚ := 1 - (dist : ℚ) / (max na.length nb.length : ℚ)
    max (jaccard * (75 / 100) + editSim * (25 / 100)) (editSim * (85 / 100))

-- ---------------------------------------------------------------------------
-- Data model (src/lib/types.ts)
-- ---------------------------------------------------------------------------

inductive Currency | AED | USD | EUR
deriving DecidableEq, Repr

inductive ActionKind | borrow | lend | buy | sell | spend
deriving DecidableEq, Repr

structure JournalLine where
  account : String
  debit : ℚ
  credit : ℚ
deriving DecidableEq, Repr

structure JournalEntry where
  id : String
  dateISO : String
  memo : String
  currency : Currency
  entityId : String
  businessUnitId : Option String
  lines : List JournalLine
deriving DecidableEq, Repr

structure ParsedEvent where
  dateISO : Option String
  action : Option ActionKind
  amount : Option ℚ
  currency : Option Currency
  counterparty : Option String
  item : Option String
  expenseAccount : Option String
  raw : String
deriving DecidableEq, Repr

inductive NormalSide | debit | credit
deriving DecidableEq, Repr

structure Account where
  id : String
  name : String
  normalSide : NormalSide
  openingBalance : ℚ
deriving DecidableEq, Repr

/-- Composer defaults passed to the synthesizer (`ComposerState` subset). -/
structure ComposerDefaults where
  currency : Currency
  vatEnabled : Bool
  vatRate : ℚ
  vatInclusive : Bool
  useARAP : Bool
deriving DecidableEq, Repr

-- ---------------------------------------------------------------------------
-- JS plain objects used as string-keyed maps (`Record<string, T>`, `Map`).
-- Insertion order is preserved; assignment overwrites in place.
-- ---------------------------------------------------------------------------

abbrev AList (α : Type) := List (String × α)

def aget {α} : AList α → String → Option α
  | [], _ => none
  | (k', v) :: rest, k => if k' == k then some v else aget rest k

def aset {α} : AList α → String → α → AList α
  | [], k, v => [(k, v)]
  | (k', v') :: rest, k, v =>
    if k' == k then (k', v) :: rest else (k', v') :: aset rest k v

abbrev Balances := AList ℚ

def akeys {α} (m : AList α) : List String := m.map (·.1)

-- ---------------------------------------------------------------------------
-- Account resolution (CopilotComposer.tsx, resolveClosestAccounts)
-- ---------------------------------------------------------------------------

/-- Lexicographic (code-unit) string order, modelling the
`localeCompare`-based sort on the ASCII account names at hand. -/
def lexLeChars : List Char → List Char → Bool
  | [], _ => true
  | _ :: _, [] => false
  | a :: as, b :: bs =>
    if a == b then lexLeChars as bs else decide (a.toNat ≤ b.toNat)

def strLe (a b : String) : Bool := lexLeChars (chars a) (chars b)

def insertSorted (x : String) : List String → List String
  | [] => [x]
  | y :: ys => if strLe x y then x :: y :: ys else y :: insertSorted x ys

def sortStrings (l : List String) : List String := l.foldr insertSorted []

/-- The `byNorm` map: normalized name → canonical chart name. -/
def byNormOf (accounts : List Account) : AList String :=
  accounts.foldl (fun m a => aset m (normalizeName a.name) a.name) []

/-- The configured default expense account: the chart entry whose
normalized name is "purchases / expense", or failing that "purchases". -/
def purchasesFallback (accounts : List Account) : Option String :=
  (aget (byNormOf accounts) (normalizeName "Purchases / Expense")).orElse
    (fun _ => aget (byNormOf accounts) (normalizeName "Purchases"))

/-- The best fuzzy match: fold with strict improvement, exactly as the
`for` loop with `sc > bestScore` (score 0 never sets a name). -/
def bestMatch (accounts : List Account) (rawName : String) : Option String × ℚ :=
  accounts.foldl
    (fun b a =>
      let sc := similarity rawName a.name
      if sc > b.2 then (some a.name, sc) else b)
    (none, 0)

/-- State threaded through line resolution: the unresolved set (insertion
order, deduplicated) and the resolved hints map. -/
abbrev ResolveState := List String × AList String

def resolveLine (accounts : List Account) (minScore : ℚ) (st : ResolveState)
    (ln : JournalLine) : JournalLine × ResolveState :=
  let rawName := trimS ln.account
  let norm := normalizeName rawName
  match aget (byNormOf accounts) norm with
  | some exact => ({ ln with account := exact }, st)
  | none =>
    let best := bestMatch accounts rawName
    match best with
    | (some bestName, bestScore) =>
      if bestScore ≥ minScore then
        ({ ln with account := bestName }, (st.1, aset st.2 rawName bestName))
      else resolveLineFallback accounts st ln rawName
    | (none, _) => resolveLineFallback accounts st ln rawName
where
  resolveLineFallback (accounts : List Account) (st : ResolveState)
      (ln : JournalLine) (rawName : String) : JournalLine × ResolveState :=
    match purchasesFallback accounts with
    | some fb =>
      if ln.debit > 0 ∧ ln.credit = 0 then
        ({ ln with account := fb }, (st.1, aset st.2 rawName fb))
      else
        ((ln), (if st.1.contains rawName then st.1 else st.1 ++ [rawName], st.2))
    | none =>
      ((ln), (if st.1.contains rawName then st.1 else st.1 ++ [rawName], st.2))

/-- `map` with threaded state (the closures mutate `unresolvedSet` and
`resolvedMap` while mapping). -/
def mapWithState {σ α β : Type} (f : σ → α → β × σ) : σ → List α → List β × σ
  | s, [] => ([], s)
  | s, x :: xs =>
    let (y, s') := f s x
    let (ys, s'') := mapWithState f s' xs
    (y :: ys, s'')

structure ResolveResult where
  entries : List JournalEntry
  unresolved : List String
  resolvedMap : AList String
deriving DecidableEq, Repr

/-- `resolveClosestAccounts` from CopilotComposer. -/
def resolveClosestAccounts (entries : List JournalEntry)
    (accounts : List Account) (minScore : Option ℚ) : ResolveResult :=
  let score := minScore.getD (72 / 100)
  let step := fun (st : ResolveState) (e : JournalEntry) =>
    let (newLines, st') := mapWithState (resolveLine accounts score) st e.lines
    ({ e with lines := newLines }, st')
  let (out, stFinal) := mapWithState step ([], []) entries
  { entries := out, unresolved := sortStrings stFinal.1, resolvedMap := stFinal.2 }

-- ---------------------------------------------------------------------------
-- JS dates (`new Date(y, m, d)`, `toISODate`, `todayISO`)
-- ---------------------------------------------------------------------------

/-- A calendar date as JS exposes it (`getFullYear`, 1-based month, day).
Values produced by `jsDate` are normalized; the threaded current date
(`now`) is assumed normalized. -/
structure CivilDate where
  year : ℤ
  month : ℤ
  day : ℤ
deriving DecidableEq, Repr

def isLeap (y : ℤ) : Bool := y % 4 == 0 && (y % 100 != 0 || y % 400 == 0)

/-- Days in 0-based month `m0` of year `y`. -/
def daysInMonth (y m0 : ℤ) : ℤ :=
  if m0 == 1 then (if isLeap y then 29 else 28)
  else if m0 == 3 || m0 == 5 || m0 == 8 || m0 == 10 then 30
  else 31

/-- Normalize an out-of-range day by carrying across months (what the JS
`Date` constructor does). Fuel-bounded; the parsers only produce days in
`0..99`, far below the fuel. -/
def normDays : ℕ → ℤ → ℤ → ℤ → CivilDate
  | 0, y, m0, d => ⟨y, m0 + 1, d⟩
  | fuel + 1, y, m0, d =>
    if d < 1 then
      let m1 := m0 - 1
      let y2 := if m1 < 0 then y - 1 else y
      let m2 := if m1 < 0 then (11 : ℤ) else m1
      normDays fuel y2 m2 (d + daysInMonth y2 m2)
    else if d > daysInMonth y m0 then
      let m1 := m0 + 1
      let y2 := if m1 > 11 then y + 1 else y
      let m2 := if m1 > 11 then (0 : ℤ) else m1
      normDays fuel y2 m2 (d - daysInMonth y m0)
    else ⟨y, m0 + 1, d⟩

/-- `new Date(y, m0, d)` (0-based month), including the JS quirk mapping
years `0..99` to `1900+y`. -/
def jsDate (y m0 d : ℤ) : CivilDate :=
  let y1 := if 0 ≤ y && y ≤ 99 then y + 1900 else y
  let tm := y1 * 12 + m0
  normDays 60 (Int.fdiv tm 12) (Int.fmod tm 12) d

/-- `candidate.getTime() > now.getTime()` for a midnight `candidate`:
equivalent to strict calendar-day order whatever the time of day of
`now` within its own day. -/
def civilLt (a b : CivilDate) : Bool :=
  decide (a.year < b.year ∨ (a.year = b.year ∧
    (a.month < b.month ∨ (a.month = b.month ∧ a.day < b.day))))

/-- `String(n).padStart(2, "0")`. -/
def pad2 (n : ℤ) : String :=
  let s := Int.repr n
  if s.length < 2 then "0" ++ s else s

/-- `toISODate` from journalEngine (year unpadded, month/day padded). -/
def toISODate (d : CivilDate) : String :=
  Int.repr d.year ++ "-" ++ pad2 d.month ++ "-" ++ pad2 d.day

def todayISO (now : CivilDate) : String := toISODate now

-- ---------------------------------------------------------------------------
-- Regex machinery: direct scanners for the fixed patterns of journalEngine
-- ---------------------------------------------------------------------------

/-- Word-character status of the character before the scan position
(`none` = start of string, a non-word position). -/
def wordB : Option Char → Bool
  | some c => isWordChar c
  | none => false

/-- Is the next character a word character? (End of input is not.) -/
def nextWord : List Char → Bool
  | c :: _ => isWordChar c
  | [] => false

def nextNonWord (l : List Char) : Bool := !nextWord l

/-- Case-insensitive character equality (regex `/i` on ASCII input). -/
def ciEq (a b : Char) : Bool := a.toLower == b.toLower

/-- Match a literal sequence case-insensitively, returning the rest. -/
def matchSeqCI : List Char → List Char → Option (List Char)
  | [], l => some l
  | _ :: _, [] => none
  | w :: ws, c :: cs => if ciEq w c then matchSeqCI ws cs else none

/-- Exactly `k` digits, returning them and the rest. -/
def takeDigits : ℕ → List Char → Option (List Char × List Char)
  | 0, l => some ([], l)
  | _ + 1, [] => none
  | k + 1, c :: rest =>
    if isDigitChar c then (takeDigits k rest).map (fun p => (c :: p.1, p.2)) else none

/-- First match of a position matcher over the string, threading the
previous character for `\b` checks. -/
def scanFirst {α : Type} (m : Option Char → List Char → Option α) :
    Option Char → List Char → Option α
  | prev, [] => m prev []
  | prev, c :: rest =>
    match m prev (c :: rest) with
    | some r => some r
    | none => scanFirst m (some c) rest

/-- Global replace-with-one-space of a matcher that reports the number of
consumed characters (`String.replace(re, " ")` with a `g` flag). -/
def replaceAllAux (m : Option Char → List Char → Option ℕ) :
    ℕ → Option Char → List Char → List Char
  | 0, _, l => l
  | _ + 1, _, [] => []
  | fuel + 1, prev, c :: rest =>
    match m prev (c :: rest) with
    | some n =>
      let lastC := ((c :: rest).take n).getLast?.getD c
      ' ' :: replaceAllAux m fuel (some lastC) ((c :: rest).drop n)
    | none => c :: replaceAllAux m fuel (some c) rest

def replaceAll (m : Option Char → List Char → Option ℕ) (l : List Char) : List Char :=
  replaceAllAux m (l.length + 1) none l

/-- `stripOrdinal`: `replace(/(\d+)(st|nd|rd|th)/gi, "$1")`. -/
def ordSuffix (a b : Char) : Bool :=
  (ciEq 's' a && ciEq 't' b) || (ciEq 'n' a && ciEq 'd' b) ||
  (ciEq 'r' a && ciEq 'd' b) || (ciEq 't' a && ciEq 'h' b)

def stripOrdinalAux : ℕ → List Char → List Char
  | 0, l => l
  | _ + 1, [] => []
  | fuel + 1, c :: rest =>
    if isDigitChar c then
      let p := digitRun (c :: rest)
      match p.2 with
      | a :: b :: r2 =>
        if ordSuffix a b then p.1 ++ stripOrdinalAux fuel r2
        else p.1 ++ stripOrdinalAux fuel p.2
      | _ => p.1 ++ stripOrdinalAux fuel p.2
    else c :: stripOrdinalAux fuel rest

def stripOrdinal (l : List Char) : List Char := stripOrdinalAux l.length l

/-- The month-name alternation, in the literal order of the regex, with the
0-based month index (`MONTHS` table). -/
def monthAlts : List (List Char × ℤ) :=
  [(chars "jan", 0), (chars "january", 0), (chars "feb", 1), (chars "february", 1),
   (chars "mar", 2), (chars "march", 2), (chars "apr", 3), (chars "april", 3),
   (chars "may", 4), (chars "jun", 5), (chars "june", 5), (chars "jul", 6),
   (chars "july", 6), (chars "aug", 7), (chars "august", 7), (chars "sep", 8),
   (chars "sept", 8), (chars "september", 8), (chars "oct", 9), (chars "october", 9),
   (chars "nov", 10), (chars "november", 10), (chars "dec", 11), (chars "december", 11)]

/-- `\b(\d{4})-(\d{2})-(\d{2})\b` at the scan position; returns the three
numbers and the consumed length. -/
def isoMatch (prev : Option Char) (l : List Char) : Option ((ℕ × ℕ × ℕ) × ℕ) :=
  if wordB prev then none
  else
    (takeDigits 4 l).bind fun p1 =>
      match p1.2 with
      | '-' :: r1 =>
        (takeDigits 2 r1).bind fun p2 =>
          match p2.2 with
          | '-' :: r2 =>
            (takeDigits 2 r2).bind fun p3 =>
              if nextNonWord p3.2 then
                some ((digitsToNat p1.1, digitsToNat p2.1, digitsToNat p3.1), 10)
              else none
          | _ => none
      | _ => none

/-- The optional `(?:\/(\d{2,4}))?` tail of the slash date followed by `\b`,
greedy on the year length. Returns (year, year-part length). -/
def slashYear : List Char → Option (ℕ × ℕ)
  | '/' :: r3 =>
    [4, 3, 2].findSome? fun k3 =>
      (takeDigits k3 r3).bind fun p =>
        if nextNonWord p.2 then some (digitsToNat p.1, k3 + 1) else none
  | _ => none

/-- `\b(\d{1,2})\/(\d{1,2})(?:\/(\d{2,4}))?\b` with the backtracking order
of the regex engine; returns (day, month, year?) and the consumed length. -/
def slashMatch (prev : Option Char) (l : List Char) :
    Option ((ℕ × ℕ × Option ℕ) × ℕ) :=
  if wordB prev then none
  else
    [2, 1].findSome? fun k1 =>
      (takeDigits k1 l).bind fun p1 =>
        match p1.2 with
        | '/' :: r2 =>
          [2, 1].findSome? fun k2 =>
            (takeDigits k2 r2).bind fun p2 =>
              match slashYear p2.2 with
              | some (y, ny) =>
                some ((digitsToNat p1.1, digitsToNat p2.1, some y), k1 + 1 + k2 + ny)
              | none =>
                if nextNonWord p2.2 then
                  some ((digitsToNat p1.1, digitsToNat p2.1, none), k1 + 1 + k2)
                else none
        | _ => none

/-- The `\s*(\d{n})?\b` tail shared by the worded-date patterns, with the
regex backtracking order: trailing spaces greedy, year-present before
year-absent, year length greedy. `prevW` is the word-status of the last
consumed character when no space is kept. Returns (year?, consumed). -/
def wordedTail (yearLens : List ℕ) (prevW : Bool) (l : List Char) :
    Option (Option ℕ × ℕ) :=
  let sp := (l.span isJsSpace).1
  let rest := (l.span isJsSpace).2
  ((List.range (sp.length + 1)).reverse).findSome? fun j =>
    let here := sp.drop j ++ rest
    let prevHere := if j = 0 then prevW else false
    let withYear := yearLens.findSome? fun ky =>
      (takeDigits ky here).bind fun p =>
        if nextNonWord p.2 then some (some (digitsToNat p.1), j + ky) else none
    match withYear with
    | some r => some r
    | none => if prevHere != nextWord here then some (none, j) else none

/-- `\b(\d{1,2})\s+(month)\s*(\d{n})?\b`; returns (day, month0, year?, len). -/
def dmyMatch (yearLens : List ℕ) (prev : Option Char) (l : List Char) :
    Option ((ℕ × ℤ × Option ℕ) × ℕ) :=
  if wordB prev then none
  else
    [2, 1].findSome? fun k1 =>
      (takeDigits k1 l).bind fun p1 =>
        let sp := (p1.2.span isJsSpace).1
        let r2 := (p1.2.span isJsSpace).2
        if sp.length = 0 then none
        else
          monthAlts.findSome? fun alt =>
            (matchSeqCI alt.1 r2).bind fun r3 =>
              (wordedTail yearLens true r3).map fun t =>
                ((digitsToNat p1.1, alt.2, t.1), k1 + sp.length + alt.1.length + t.2)

/-- `\b(month)\s+(\d{1,2})\s*(\d{n})?\b`; returns (month0, day, year?, len). -/
def mdyMatch (yearLens : List ℕ) (prev : Option Char) (l : List Char) :
    Option ((ℤ × ℕ × Option ℕ) × ℕ) :=
  if wordB prev then none
  else
    monthAlts.findSome? fun alt =>
      (matchSeqCI alt.1 l).bind fun r1 =>
        let sp := (r1.span isJsSpace).1
        let r2 := (r1.span isJsSpace).2
        if sp.length = 0 then none
        else
          [2, 1].findSome? fun k =>
            (takeDigits k r2).bind fun p =>
              (wordedTail yearLens true p.2).map fun t =>
                ((alt.2, digitsToNat p.1, t.1), alt.1.length + sp.length + k + t.2)

-- ---------------------------------------------------------------------------
-- journalEngine parsers
-- ---------------------------------------------------------------------------

/-- `parseAnyDate` from journalEngine: ISO, then slash, then `D Month`,
then `Month D`; year-less forms roll back a year when in the future. -/
def parseAnyDate (now : CivilDate) (text : String) : Option String :=
  let t := stripOrdinal (lower (chars text))
  match scanFirst isoMatch none t with
  | some ((y, m, d), _) => some (toISODate (jsDate (y : ℤ) ((m : ℤ) - 1) (d : ℤ)))
  | none =>
  match scanFirst (slashMatch) none t with
  | some ((dd, mm, oyy), _) =>
    match oyy with
    | some yRaw =>
      let y : ℤ := if yRaw < 100 then (yRaw : ℤ) + 2000 else (yRaw : ℤ)
      some (toISODate (jsDate y ((mm : ℤ) - 1) (dd : ℤ)))
    | none =>
      let y0 := now.year
      let candidate := jsDate y0 ((mm : ℤ) - 1) (dd : ℤ)
      if civilLt now candidate then
        some (toISODate (jsDate (y0 - 1) ((mm : ℤ) - 1) (dd : ℤ)))
      else some (toISODate candidate)
  | none =>
  match scanFirst (dmyMatch [4]) none t with
  | some ((dd, m0, oy), _) =>
    let y0 := oy.elim now.year (fun y => (y : ℤ))
    let candidate := jsDate y0 m0 (dd : ℤ)
    if oy.isNone && civilLt now candidate then
      some (toISODate (jsDate (y0 - 1) m0 (dd : ℤ)))
    else some (toISODate candidate)
  | none =>
  match scanFirst (mdyMatch [4]) none t with
  | some ((m0, dd, oy), _) =>
    let y0 := oy.elim now.year (fun y => (y : ℤ))
    let candidate := jsDate y0 m0 (dd : ℤ)
    if oy.isNone && civilLt now candidate then
      some (toISODate (jsDate (y0 - 1) m0 (dd : ℤ)))
    else some (toISODate candidate)
  | none => none

/-- Word-boundary keyword test: `\b(w1|w2|...)\b.test(t)`. -/
def hasWordAux (ws : List (List Char)) : Option Char → List Char → Bool
  | _, [] => false
  | prev, c :: rest =>
    (!wordB prev &&
      ws.any fun w =>
        match matchSeqCI w (c :: rest) with
        | some r => nextNonWord r
        | none => false) ||
    hasWordAux ws (some c) rest

def hasWord (ws : List String) (l : List Char) : Bool :=
  hasWordAux (ws.map chars) none l

/-- The euro sign as it literally appears in the source file (the bytes of
a UTF-8 euro sign decoded as Latin-1: `U+00E2 U+201A U+00AC`). -/
def euroSeq : List Char := [Char.ofNat 226, Char.ofNat 8218, Char.ofNat 172]

/-- `parseCurrency` from journalEngine. -/
def parseCurrency (text : String) : Option Currency :=
  let t := lower (chars text)
  if hasWord ["aed", "dh", "dhs", "dirham", "dirhams"] t then some Currency.AED
  else if hasWord ["usd", "dollar", "dollars"] t || t.contains '$' then some Currency.USD
  else if hasWord ["eur", "euro", "euros"] t || containsSub euroSeq t then some Currency.EUR
  else none

/-- One `(?:,\d{3})+` run: returns (digits sans commas, rest, consumed). -/
def commaGroups : ℕ → List Char → List Char × List Char × ℕ
  | 0, l => ([], l, 0)
  | fuel + 1, l =>
    match l with
    | ',' :: r =>
      match takeDigits 3 r with
      | some p =>
        let rec3 := commaGroups fuel p.2
        (p.1 ++ rec3.1, rec3.2.1, rec3.2.2 + 4)
      | none => ([], l, 0)
    | _ => ([], l, 0)

/-- `(\d{1,3}(?:,\d{3})+|\d+)(?:\.(\d{1,2}))?` at the scan position;
returns (integer digits with commas stripped, decimal digits, consumed). -/
def amountMatchAt (l : List Char) : Option (List Char × Option (List Char) × ℕ) :=
  let alt1 := [3, 2, 1].findSome? fun k =>
    (takeDigits k l).bind fun p =>
      let g := commaGroups l.length p.2
      if g.2.2 = 0 then none else some (p.1 ++ g.1, g.2.1, k + g.2.2)
  let core :=
    match alt1 with
    | some r => some r
    | none =>
      let run := digitRun l
      if run.1.isEmpty then none else some (run.1, run.2, run.1.length)
  core.map fun r =>
    match r.2.1 with
    | '.' :: d1 :: r2 =>
      if isDigitChar d1 then
        match r2 with
        | d2 :: _ =>
          if isDigitChar d2 then (r.1, some [d1, d2], r.2.2 + 3)
          else (r.1, some [d1], r.2.2 + 2)
        | [] => (r.1, some [d1], r.2.2 + 2)
      else (r.1, none, r.2.2)
    | _ => (r.1, none, r.2.2)

/-- All matches of the amount pattern, in order (`matchAll`). -/
def amountMatchesAux : ℕ → List Char → List (List Char × Option (List Char))
  | 0, _ => []
  | _ + 1, [] => []
  | fuel + 1, c :: rest =>
    match amountMatchAt (c :: rest) with
    | some (intD, dec, n) => (intD, dec) :: amountMatchesAux fuel ((c :: rest).drop n)
    | none => amountMatchesAux fuel rest

def amountMatches (l : List Char) : List (List Char × Option (List Char)) :=
  amountMatchesAux (l.length + 1) l

/-- `Number(...)` of the captured digits. -/
def amountValue (intD : List Char) (dec : Option (List Char)) : ℚ :=
  (digitsToNat intD : ℚ) +
    (match dec with
     | some d => (digitsToNat d : ℚ) / ((10 : ℚ) ^ d.length)
     | none => 0)

/-- Scrub matchers used by `parseAmount` (each returns consumed length). -/
def scrubIso (prev : Option Char) (l : List Char) : Option ℕ :=
  (isoMatch prev l).map (·.2)

def scrubSlash (prev : Option Char) (l : List Char) : Option ℕ :=
  (slashMatch prev l).map (·.2)

def scrubDmy (prev : Option Char) (l : List Char) : Option ℕ :=
  (dmyMatch [4, 3, 2] prev l).map (·.2)

def scrubMdy (prev : Option Char) (l : List Char) : Option ℕ :=
  (mdyMatch [4, 3, 2] prev l).map (·.2)

/-- `parseAmount` from journalEngine: scrub ordinals and all date shapes,
then take the LAST remaining number. -/
def parseAmount (text : String) : Option ℚ :=
  let scrubbed :=
    replaceAll scrubMdy (replaceAll scrubDmy (replaceAll scrubSlash
      (replaceAll scrubIso (stripOrdinal (chars text)))))
  match (amountMatches scrubbed).getLast? with
  | none => none
  | some (intD, dec) =>
    let n := amountValue intD dec
    if n ≤ 0 then none else some (round2 n)

/-- `parseAction` from journalEngine (keyword sets in source order). -/
def parseAction (text : String) : Option ActionKind :=
  let t := lower (chars text)
  if hasWord ["lend", "lent", "loaned"] t then some ActionKind.lend
  else if hasWord ["borrow", "borrowed"] t then some ActionKind.borrow
  else if hasWord ["buy", "bought", "purchase", "purchased"] t then some ActionKind.buy
  else if hasWord ["sell", "sold"] t then some ActionKind.sell
  else if hasWord ["spend", "spent", "pay", "paid"] t then some ActionKind.spend
  else none

/-- `/\b<kw>\s+([a-zA-Z][^,.\n;]*)/i`: keyword, spaces, captured name. -/
def cpMatchAt (kw : List Char) (prev : Option Char) (l : List Char) :
    Option (List Char) :=
  if wordB prev then none
  else
    (matchSeqCI kw l).bind fun r1 =>
      let sp := (r1.span isJsSpace).1
      let r2 := (r1.span isJsSpace).2
      if sp.length = 0 then none
      else
        match r2 with
        | c :: r3 =>
          if isAsciiAlpha c then
            some (c :: r3.takeWhile fun x =>
              !(x == ',' || x == '.' || x == '\n' || x == ';'))
          else none
        | [] => none

def cpMatch (kw : String) (text : String) : Option String :=
  (scanFirst (cpMatchAt (chars kw)) none (chars text)).map fun g => str (trimChars g)

/-- `/\b(a|my)\s+friend\b/i.test`. -/
def friendAt (prev : Option Char) (l : List Char) : Option Unit :=
  if wordB prev then none
  else
    [chars "a", chars "my"].findSome? fun alt =>
      (matchSeqCI alt l).bind fun r1 =>
        let sp := (r1.span isJsSpace).1
        let r2 := (r1.span isJsSpace).2
        if sp.length = 0 then none
        else
          (matchSeqCI (chars "friend") r2).bind fun r3 =>
            if nextNonWord r3 then some () else none

/-- `parseCounterparty` from journalEngine. -/
def parseCounterparty (text : String) (action : Option ActionKind) :
    Option String :=
  let toM := cpMatch "to" text
  let fromM := cpMatch "from" text
  let viaTo :=
    if action = some ActionKind.lend ∨ action = some ActionKind.sell then toM
    else none
  let viaFrom :=
    if action = some ActionKind.borrow ∨ action = some ActionKind.buy then fromM
    else none
  match viaTo with
  | some s => some s
  | none =>
    match viaFrom with
    | some s => some s
    | none =>
      if (scanFirst friendAt none (chars text)).isSome then some "Friend" else none

/-- `/\b(buy|bought|purchase|purchased|sell|sold)\b\s+(.+?)\s+\bfor\b/i`
at the scan position. The lazy group is found as the shortest gap followed
by spaces and a bounded "for". -/
def itemAt (prev : Option Char) (l : List Char) : Option (List Char) :=
  if wordB prev then none
  else
    [chars "buy", chars "bought", chars "purchase", chars "purchased",
     chars "sell", chars "sold"].findSome? fun w =>
      (matchSeqCI w l).bind fun r1 =>
        let sp := (r1.span isJsSpace).1
        let r2 := (r1.span isJsSpace).2
        if sp.length = 0 then none
        else
          ((List.range r2.length).drop 1).findSome? fun len =>
            let gap := r2.take len
            if gap.any (fun ch => ch == '\n' || ch == '\r') then none
            else
              let r3 := r2.drop len
              let sp2 := (r3.span isJsSpace).1
              let r4 := (r3.span isJsSpace).2
              if sp2.length = 0 then none
              else
                (matchSeqCI (chars "for") r4).bind fun r5 =>
                  if nextNonWord r5 then some gap else none

/-- `parseItem` from journalEngine (buy/sell only). -/
def parseItem (text : String) (action : Option ActionKind) : Option String :=
  if action = some ActionKind.buy ∨ action = some ActionKind.sell then
    (scanFirst itemAt none (chars text)).map fun g => str (trimChars g)
  else none

/-- `/\b<kw>\s+([^,.;\n]+)$/i` at the scan position (end-anchored). -/
def eaMatchAt (kw : List Char) (prev : Option Char) (l : List Char) :
    Option (List Char) :=
  if wordB prev then none
  else
    (matchSeqCI kw l).bind fun r1 =>
      let sp := (r1.span isJsSpace).1
      let r2 := (r1.span isJsSpace).2
      if sp.length = 0 then none
      else
        if r2.isEmpty then
          if sp.length ≥ 2 then some [' '] else none
        else
          if r2.all (fun ch => !(ch == ',' || ch == '.' || ch == ';' || ch == '\n')) then
            some r2
          else none

/-- `parseExpenseAccount` from journalEngine: trailing "on ...", then
"for ...", then "of ..." clauses. -/
def parseExpenseAccount (text : String) : Option String :=
  let try1 := fun (kw : String) =>
    (scanFirst (eaMatchAt (chars kw)) none (chars text)).map fun g =>
      str (trimChars g)
  match try1 "on" with
  | some s => some s
  | none =>
    match try1 "for" with
    | some s => some s
    | none => try1 "of"

-- ---------------------------------------------------------------------------
-- Entry synthesizer (journalEngine)
-- ---------------------------------------------------------------------------

structure VatSplit where
  base : ℚ
  vat : ℚ
  total : ℚ
deriving DecidableEq, Repr

/-- `splitVAT` from journalEngine (`!rate || rate <= 0` is `rate ≤ 0` on ℚ). -/
def splitVAT (amount rate : ℚ) (inclusive : Bool) : VatSplit :=
  if rate ≤ 0 then ⟨round2 amount, 0, round2 amount⟩
  else if inclusive then
    let base := amount / (1 + rate)
    ⟨round2 base, round2 (amount - base), round2 amount⟩
  else
    let vat := amount * rate
    ⟨round2 amount, round2 vat, round2 (amount + vat)⟩

/-- The `line()` helper: rounds both legs. -/
def mkLine (account : String) (debit credit : ℚ) : JournalLine :=
  ⟨account, round2 debit, round2 credit⟩

/-- `normalizeAccountKey`: `s.trim().toLowerCase()`. -/
def normalizeAccountKey (s : String) : String := str (lower (trimChars (chars s)))

/-- `pickAllowedAccountName`; an empty candidate is falsy in JS. -/
def pickAllowedAccountName (candidate : Option String)
    (allowedNameMap : Option (AList String)) : Option String :=
  match candidate, allowedNameMap with
  | some c, some m => if c = "" then none else aget m (normalizeAccountKey c)
  | _, _ => none

def sumDebits (lines : List JournalLine) : ℚ :=
  round2 (lines.foldl (fun s l => s + l.debit) 0)

def sumCredits (lines : List JournalLine) : ℚ :=
  round2 (lines.foldl (fun s l => s + l.credit) 0)

def isBalancedEntry (e : JournalEntry) : Bool :=
  decide (|sumDebits e.lines - sumCredits e.lines| ≤ 1 / 100)

def actionUpper : ActionKind → String
  | ActionKind.borrow => "BORROW"
  | ActionKind.lend => "LEND"
  | ActionKind.buy => "BUY"
  | ActionKind.sell => "SELL"
  | ActionKind.spend => "SPEND"

/-- The memo assembled by `generateEntryFromEvent`. -/
def memoOf (ev : ParsedEvent) (action : ActionKind) : String :=
  let parts :=
    [actionUpper action] ++
    (match ev.counterparty with | some c => [c] | none => []) ++
    (match ev.item with | some i => ["(" ++ i ++ ")"] | none => []) ++
    [trimS ev.raw]
  String.intercalate " - " parts

/-- The per-action posting template (the `switch` of
`generateEntryFromEvent`), separated out so the balance post-condition can
be stated about it. -/
def templateLines (ev : ParsedEvent) (action : ActionKind) (amount : ℚ)
    (defaults : ComposerDefaults) (allowedMap : Option (AList String)) :
    List JournalLine :=
  let needsVAT := action = ActionKind.buy ∨ action = ActionKind.sell
  let vatRate := if needsVAT ∧ defaults.vatEnabled then defaults.vatRate else 0
  let vat := splitVAT amount vatRate defaults.vatInclusive
  match action with
  | ActionKind.borrow =>
    [mkLine "Cash" amount 0, mkLine "Loan Payable" 0 amount]
  | ActionKind.lend =>
    [mkLine "Loan Receivable" amount 0, mkLine "Cash" 0 amount]
  | ActionKind.buy =>
    let creditAccount := if defaults.useARAP then "Accounts Payable" else "Cash"
    let allowedDebit :=
      (pickAllowedAccountName ev.expenseAccount allowedMap).getD "Purchases / Expense"
    [mkLine allowedDebit vat.base 0] ++
    (if vat.vat > 0 then [mkLine "Input VAT" vat.vat 0] else []) ++
    [mkLine creditAccount 0 vat.total]
  | ActionKind.sell =>
    let debitAccount := if defaults.useARAP then "Accounts Receivable" else "Cash"
    [mkLine debitAccount vat.total 0, mkLine "Revenue" 0 vat.base] ++
    (if vat.vat > 0 then [mkLine "Output VAT" 0 vat.vat] else [])
  | ActionKind.spend =>
    let creditAccount := if defaults.useARAP then "Accounts Payable" else "Cash"
    let allowedDebit :=
      (pickAllowedAccountName ev.expenseAccount allowedMap).getD "Purchases / Expense"
    [mkLine allowedDebit amount 0, mkLine creditAccount 0 amount]

/-- Running context threaded through entry generation. -/
structure DCtx where
  dateISO : String
  currency : Currency
deriving DecidableEq, Repr

/-- `generateEntryFromEvent` from journalEngine; `idStr` stands for the
`makeId()` call (random id source threaded explicitly). -/
def generateEntryFromEvent (idStr : String) (ev : ParsedEvent)
    (defaults : ComposerDefaults) (context : DCtx)
    (allowedMap : Option (AList String)) : Option JournalEntry :=
  match ev.action, ev.amount with
  | some action, some amount =>
    if amount = 0 then none
    else
      let dateISO := ev.dateISO.getD context.dateISO
      let currency := ev.currency.getD context.currency
      let memo := memoOf ev action
      let lines := templateLines ev action amount defaults allowedMap
      let totalD := sumDebits lines
      let totalC := sumCredits lines
      if |totalD - totalC| > 1 / 100 then none
      else some ⟨idStr, dateISO, memo, currency, "entity-default", none, lines⟩
  | _, _ => none

-- ---------------------------------------------------------------------------
-- Text event extraction (journalEngine)
-- ---------------------------------------------------------------------------

/-- `split(/[\n.;]+/g)`: pieces between separator runs, empties kept. -/
def splitRunsAux (p : Char → Bool) : Bool → List Char → List Char → List (List Char)
  | _, [], acc => [acc.reverse]
  | inSep, c :: rest, acc =>
    if p c then
      if inSep then splitRunsAux p true rest acc
      else acc.reverse :: splitRunsAux p true rest []
    else splitRunsAux p false rest (c :: acc)

def splitRuns (p : Char → Bool) (l : List Char) : List (List Char) :=
  splitRunsAux p false l []

/-- `\b(and then|then|also)\b` at the scan position (consumed length). -/
def sepMatchAt (prev : Option Char) (l : List Char) : Option ℕ :=
  if wordB prev then none
  else
    [chars "and then", chars "then", chars "also"].findSome? fun w =>
      (matchSeqCI w l).bind fun r =>
        if nextNonWord r then some w.length else none

/-- `split(/\b(and then|then|also)\b/gi)`: because of the capturing group,
the separators themselves appear in the output list. -/
def splitCapsAux : ℕ → Option Char → List Char → List Char → List (List Char)
  | 0, _, l, acc => [acc.reverse ++ l]
  | _ + 1, _, [], acc => [acc.reverse]
  | fuel + 1, prev, c :: rest, acc =>
    match sepMatchAt prev (c :: rest) with
    | some n =>
      let matched := (c :: rest).take n
      acc.reverse :: matched ::
        splitCapsAux fuel (some (matched.getLast?.getD c)) ((c :: rest).drop n) []
    | none => splitCapsAux fuel (some c) rest (c :: acc)

def splitCaps (l : List Char) : List (List Char) :=
  splitCapsAux (l.length + 1) none l []

/-- `extractEventsWithContext` from journalEngine. -/
def extractEventsWithContext (now : CivilDate) (text : String) : List ParsedEvent :=
  let raw := trimS text
  if raw = "" then []
  else
    let segments :=
      (((splitRuns (fun c => c == '\n' || c == '.' || c == ';') (chars raw)).flatMap
          splitCaps).map trimChars).filter (fun p => !p.isEmpty)
    let init : Option String × Option Currency × List ParsedEvent :=
      (parseAnyDate now raw, parseCurrency raw, [])
    let final := segments.foldl
      (fun st segC =>
        let seg := str segC
        let segDate := parseAnyDate now seg
        let ctxD := match segDate with | some d => some d | none => st.1
        let segCur := parseCurrency seg
        let ctxC := match segCur with | some cu => some cu | none => st.2.1
        let action := parseAction seg
        let amount := parseAmount seg
        let evs :=
          match action, amount with
          | some a, some amt =>
            st.2.2 ++ [⟨segDate, some a, some amt, segCur,
              parseCounterparty seg (some a), parseItem seg (some a),
              (if a = ActionKind.spend ∨ a = ActionKind.buy then
                parseExpenseAccount seg else none), seg⟩]
          | _, _ => st.2.2
        (ctxD, ctxC, evs))
      init
    if final.2.2.isEmpty then
      match parseAction raw, parseAmount raw with
      | some a, some amt =>
        [⟨final.1, some a, some amt, final.2.1,
          parseCounterparty raw (some a), parseItem raw (some a),
          (if a = ActionKind.spend ∨ a = ActionKind.buy then
            parseExpenseAccount raw else none), raw⟩]
      | _, _ => []
    else final.2.2

structure GenResult where
  events : List ParsedEvent
  entries : List JournalEntry
deriving DecidableEq, Repr

/-- The loop body of `generateEntriesFromText`: update the running
context, then append the generated entry when one is produced (a
`makeId()` id is consumed only on success). -/
def genStep (supply : ℕ → String) (defaults : ComposerDefaults)
    (allowedMap : Option (AList String)) (st : DCtx × ℕ × List JournalEntry)
    (ev : ParsedEvent) : DCtx × ℕ × List JournalEntry :=
  let running : DCtx :=
    ⟨ev.dateISO.getD st.1.dateISO, ev.currency.getD st.1.currency⟩
  match generateEntryFromEvent (supply st.2.1) ev defaults running allowedMap with
  | some e => (running, st.2.1 + 1, st.2.2 ++ [e])
  | none => (running, st.2.1, st.2.2)

/-- `generateEntriesFromText` from journalEngine. `supply k` is the id the
`k`-th `makeId()` call would return. -/
def generateEntriesFromText (now : CivilDate) (supply : ℕ → String)
    (text : String) (defaults : ComposerDefaults)
    (allowedAccounts : Option (List String)) : GenResult :=
  let events := extractEventsWithContext now text
  let firstDate := (parseAnyDate now text).getD (todayISO now)
  let firstCurrency := (parseCurrency text).getD defaults.currency
  let allowedMap : Option (AList String) :=
    match allowedAccounts with
    | some l =>
      if l.isEmpty then none
      else some (l.foldl (fun m n => aset m (normalizeAccountKey n) n) [])
    | none => none
  let final := events.foldl (genStep supply defaults allowedMap)
    (⟨firstDate, firstCurrency⟩, 0, [])
  ⟨events, final.2.2⟩

-- ---------------------------------------------------------------------------
-- Balance calculator (journalEngine, computeBalances)
-- ---------------------------------------------------------------------------

structure BalancesPair where
  opening : Balances
  closing : Balances
deriving DecidableEq, Repr

/-- One line of the closing-balance loop of `computeBalances`. -/
def applyLine (c : Balances) (ln : JournalLine) : Balances :=
  let c1 := if (aget c ln.account).isSome then c else aset c ln.account 0
  aset c1 ln.account (round2 ((aget c1 ln.account).getD 0 + ln.debit - ln.credit))

def applyEntry (c : Balances) (e : JournalEntry) : Balances :=
  e.lines.foldl applyLine c

/-- `computeBalances` from journalEngine. -/
def computeBalances (accounts : List Account) (entries : List JournalEntry) :
    BalancesPair :=
  let o0 := accounts.foldl (fun m a => aset m a.name (round2 a.openingBalance)) []
  let c0 := accounts.foldl (fun m a => aset m a.name (round2 a.openingBalance)) []
  let closing := entries.foldl applyEntry c0
  let opening := (akeys closing).foldl
    (fun o k => if (aget o k).isSome then o else aset o k 0) o0
  ⟨opening, closing⟩

-- ---------------------------------------------------------------------------
-- Schedules engine (src/lib/schedulesEngine.ts, the marker/dedupe variant)
-- ---------------------------------------------------------------------------

def isPeriod (s : String) : Bool :=
  match chars s with
  | [a, b, c, d, h, e, f] =>
    isDigitChar a && isDigitChar b && isDigitChar c && isDigitChar d &&
    h == '-' && isDigitChar e && isDigitChar f
  | _ => false

def pad2N (n : ℕ) : String :=
  let s := Nat.repr n
  if s.length < 2 then "0" ++ s else s

def periodToISODate (period : String) (day : ℕ) : String :=
  period ++ "-" ++ pad2N day

/-- `scheduleMarker`: the dedupe marker `[AUTO:kind:scheduleId:period]`. -/
def scheduleMarker (kind scheduleId period : String) : String :=
  "[AUTO:" ++ kind ++ ":" ++ scheduleId ++ ":" ++ period ++ "]"

/-- JS string `<` (code-unit lexicographic). -/
def lexLtChars : List Char → List Char → Bool
  | [], [] => false
  | [], _ :: _ => true
  | _ :: _, [] => false
  | a :: as, b :: bs => if a == b then lexLtChars as bs else decide (a.toNat < b.toNat)

def strLt (a b : String) : Bool := lexLtChars (chars a) (chars b)

/-- `addMonths` from schedulesEngine: `new Date(y, m, 1)` then
`setMonth(getMonth() + delta)`. -/
def addMonths (period : String) (delta : ℤ) : String :=
  let ps := fieldsBy (fun c => c == '-') (chars period)
  let y : ℤ := (digitsToNat (ps.headD []) : ℤ)
  let m : ℤ := (digitsToNat ((ps.drop 1).headD []) : ℤ) - 1
  let c1 := jsDate y m 1
  let tm := c1.year * 12 + (c1.month - 1) + delta
  Int.repr (Int.fdiv tm 12) ++ "-" ++ pad2 (Int.fmod tm 12 + 1)

inductive DepreciationMethod | straight_line_monthly
deriving DecidableEq, Repr

structure AssetSchedule where
  id : String
  entityId : String
  name : String
  currency : Currency
  assetAccount : String
  accumulatedDepreciationAccount : String
  depreciationExpenseAccount : String
  inServicePeriod : String
  cost : ℚ
  salvageValue : Option ℚ
  usefulLifeMonths : ℤ
  method : DepreciationMethod
  enabled : Bool
deriving DecidableEq, Repr

structure LiabilitySchedule where
  id : String
  entityId : String
  name : String
  currency : Currency
  liabilityAccount : String
  interestExpenseAccount : String
  cashAccount : String
  startPeriod : String
  principal : ℚ
  annualInterestRate : ℚ
  termMonths : ℤ
  enabled : Bool
deriving DecidableEq, Repr

structure SchedulesState where
  assets : List AssetSchedule
  liabilities : List LiabilitySchedule
deriving DecidableEq, Repr

/-- Memos of the saved entries of the entity (the `savedMemoIndex`). -/
def savedMemos (savedEntries : List JournalEntry) (entityId : String) : List String :=
  (savedEntries.filter (fun e => e.entityId == entityId)).map (·.memo)

/-- One asset iteration of `generateScheduledEntriesForPeriod`. -/
def assetStep (period entityId : String) (memos : List String) (idStr : String)
    (a : AssetSchedule) : Option JournalEntry :=
  if !a.enabled then none
  else if a.entityId ≠ entityId then none
  else if !isPeriod a.inServicePeriod then none
  else if strLt period a.inServicePeriod then none
  else
    let endPeriod := addMonths a.inServicePeriod (a.usefulLifeMonths - 1)
    if strLt endPeriod period then none
    else
      let salvage := a.salvageValue.getD 0
      let depBase := max 0 (a.cost - salvage)
      let monthly := if a.usefulLifeMonths > 0 then round2 (depBase / (a.usefulLifeMonths : ℚ)) else 0
      if monthly ≤ 0 then none
      else
        let marker := scheduleMarker "DEP" a.id period
        if memos.any (fun m => strIncludes m marker) then none
        else some
          { id := idStr, entityId := entityId,
            dateISO := periodToISODate period 28,
            memo := "Depreciation • " ++ a.name ++ " " ++ marker,
            currency := a.currency, businessUnitId := none,
            lines := [mkLine a.depreciationExpenseAccount monthly 0,
                      mkLine a.accumulatedDepreciationAccount 0 monthly] }

/-- One liability iteration of `generateScheduledEntriesForPeriod`. -/
def loanStep (period entityId : String) (memos : List String) (idStr : String)
    (l : LiabilitySchedule) : Option JournalEntry :=
  if !l.enabled then none
  else if l.entityId ≠ entityId then none
  else if !isPeriod l.startPeriod then none
  else if strLt period l.startPeriod then none
  else
    let endPeriod := addMonths l.startPeriod (l.termMonths - 1)
    if strLt endPeriod period then none
    else
      let principalPerMonth :=
        if l.termMonths > 0 then round2 (l.principal / (l.termMonths : ℚ)) else 0
      let monthlyRate := l.annualInterestRate / 12
      let interest := round2 (l.principal * monthlyRate)
      let principalPay := max 0 principalPerMonth
      let marker := scheduleMarker "LOAN" l.id period
      if memos.any (fun m => strIncludes m marker) then none
      else if interest ≤ 0 ∧ principalPay ≤ 0 then none
      else some
        { id := idStr, entityId := entityId,
          dateISO := periodToISODate period 28,
          memo := "Loan schedule • " ++ l.name ++ " " ++ marker,
          currency := l.currency, businessUnitId := none,
          lines :=
            (if interest > 0 then [mkLine l.interestExpenseAccount interest 0] else []) ++
            (if principalPay > 0 then [mkLine l.liabilityAccount principalPay 0] else []) ++
            [mkLine l.cashAccount 0 (round2 (interest + principalPay))] }

/-- Fold emitting optional entries while consuming one id per emitted
entry (a `makeId()` call happens only on `push`). -/
def emitFold {α : Type} (f : String → α → Option JournalEntry)
    (supply : ℕ → String) :
    List JournalEntry × ℕ → List α → List JournalEntry × ℕ
  | st, [] => st
  | st, x :: xs =>
    match f (supply st.2) x with
    | some e => emitFold f supply (st.1 ++ [e], st.2 + 1) xs
    | none => emitFold f supply st xs

/-- `generateScheduledEntriesForPeriod` from schedulesEngine. -/
def generateScheduledEntriesForPeriod (supply : ℕ → String)
    (period entityId : String) (savedEntries : List JournalEntry)
    (schedules : SchedulesState) : List JournalEntry :=
  if !isPeriod period then []
  else
    let memos := savedMemos savedEntries entityId
    let st1 := emitFold (assetStep period entityId memos) supply ([], 0) schedules.assets
    let st2 := emitFold (loanStep period entityId memos) supply st1 schedules.liabilities
    st2.1

-- ---------------------------------------------------------------------------
-- Consolidation engine (src/lib/consolidationEngine.ts)
-- ---------------------------------------------------------------------------

structure IntercompanyPolicy where
  enabled : Bool
  arAccount : String
  apAccount : String
  loanRecAccount : String
  loanPayAccount : String
deriving DecidableEq, Repr

inductive ConsolidationMethod | full | equity | none
deriving DecidableEq, Repr

structure ConsolidationPolicy where
  ownershipPct : ℚ
  method : ConsolidationMethod
  functionalCurrency : Currency
  intercompany : IntercompanyPolicy
deriving DecidableEq, Repr

structure Entity where
  id : String
  name : String
  baseCurrency : Currency
  businessUnits : List String
  policy : ConsolidationPolicy
deriving DecidableEq, Repr

/-- `addTo`: accumulate into a balance map with rounding. -/
def addTo (m : Balances) (key : String) (delta : ℚ) : Balances :=
  aset m key (round2 ((aget m key).getD 0 + delta))

structure ElimRecord where
  account : String
  amount : ℚ
  note : String
deriving DecidableEq, Repr

structure EntityBalances where
  entityId : String
  opening : Balances
  closing : Balances
deriving DecidableEq, Repr

structure ConsolidationResult where
  includedEntityIds : List String
  entityBalances : List EntityBalances
  consolidatedOpening : Balances
  consolidatedClosing : Balances
  eliminationsApplied : List ElimRecord
deriving DecidableEq, Repr

/-- The `eliminatePair` closure, on the explicit state
(consolidated closing map, elimination records). -/
def eliminatePair (a b note : String) (st : Balances × List ElimRecord) :
    Balances × List ElimRecord :=
  let balA := (aget st.1 a).getD 0
  let balB := (aget st.1 b).getD 0
  if balA = 0 ∨ balB = 0 then st
  else if balA > 0 ∧ balB < 0 then
    let elim := min |balA| |balB|
    (addTo (addTo st.1 a (-elim)) b elim, st.2 ++ [⟨a, elim, note⟩, ⟨b, elim, note⟩])
  else if balA < 0 ∧ balB > 0 then
    let elim := min |balA| |balB|
    (addTo (addTo st.1 a elim) b (-elim), st.2 ++ [⟨a, elim, note⟩, ⟨b, elim, note⟩])
  else st

structure ConsolidateParams where
  entities : List Entity
  accountsByEntity : AList (List Account)
  entries : List JournalEntry
  groupEntityId : String

/-- The empty result returned when the group id matches no entity. -/
def emptyConsolidation : ConsolidationResult := ⟨[], [], [], [], []⟩

/-- `consolidateGroup` from consolidationEngine. -/
def consolidateGroup (p : ConsolidateParams) : ConsolidationResult :=
  match p.entities.find? (fun e => e.id == p.groupEntityId) with
  | Option.none => emptyConsolidation
  | some group =>
    let included := p.entities.filter (fun e =>
      e.id == p.groupEntityId ||
      (decide (e.policy.method ≠ ConsolidationMethod.none) &&
        decide (e.policy.ownershipPct > 0)))
    let includedIds := included.map (·.id)
    let entityBalances := included.map (fun ent =>
      let entEntries := p.entries.filter (fun x => x.entityId == ent.id)
      let chart := (aget p.accountsByEntity ent.id).getD []
      let bp := computeBalances chart entEntries
      EntityBalances.mk ent.id bp.opening bp.closing)
    let consolidatedOpening := entityBalances.foldl
      (fun m eb => eb.opening.foldl (fun m2 kv => addTo m2 kv.1 kv.2) m) []
    let consolidatedClosing := entityBalances.foldl
      (fun m eb => eb.closing.foldl (fun m2 kv => addTo m2 kv.1 kv.2) m) []
    let elim :=
      if group.policy.intercompany.enabled then
        let pol := group.policy.intercompany
        eliminatePair pol.loanRecAccount pol.loanPayAccount
          "Eliminate intercompany loans"
          (eliminatePair pol.arAccount pol.apAccount
            "Eliminate intercompany A/R vs A/P" (consolidatedClosing, []))
      else (consolidatedClosing, [])
    ⟨includedIds, entityBalances, consolidatedOpening, elim.1, elim.2⟩

-- ---------------------------------------------------------------------------
-- Theorems
-- ---------------------------------------------------------------------------

section DecideFriendly

set_option maxRecDepth 100000

attribute [local semireducible] Rat.mul Rat.add Rat.sub Rat.inv

/-- C5: the similarity function meets the two stated bounds:
`similarity "Purchases / Expense" "purchases expense" ≥ 0.72` (that pair
resolves fuzzily) and `similarity "Cash" "Loan Payable" < 0.72` (that pair
never resolves fuzzily). -/
theorem C5_similarity_bounds :
    similarity "Purchases / Expense" "purchases expense" ≥ 72 / 100 ∧
    similarity "Cash" "Loan Payable" < 72 / 100 := by
  decide

/-- C3: the VAT split returns base=total=A, vat=0 for rate ≤ 0; the
rounded inclusive split `base = A/(1+r)`, `vat = A - A/(1+r)`, `total = A`;
the rounded exclusive split `base = A`, `vat = A*r`, `total = A + A*r`;
in particular A=300, r=0.05 inclusive gives 285.71 / 14.29 / 300.00, and
the buy event from "I bought 300 AED worth of goods" (VAT enabled, rate
0.05, inclusive, useARAP=false) yields
Dr Purchases/Expense 285.71, Dr Input VAT 14.29, Cr Cash 300.00. -/
theorem C3_splitVAT :
    (∀ (A r : ℚ) (inc : Bool), r ≤ 0 →
      splitVAT A r inc = ⟨round2 A, 0, round2 A⟩) ∧
    (∀ A r : ℚ, 0 < r →
      splitVAT A r true =
        ⟨round2 (A / (1 + r)), round2 (A - A / (1 + r)), round2 A⟩) ∧
    (∀ A r : ℚ, 0 < r →
      splitVAT A r false = ⟨round2 A, round2 (A * r), round2 (A + A * r)⟩) ∧
    splitVAT 300 (1 / 20) true = ⟨28571 / 100, 1429 / 100, 300⟩ ∧
    (∀ (now : CivilDate) (supply : ℕ → String),
      (generateEntriesFromText now supply "I bought 300 AED worth of goods"
          ⟨Currency.AED, true, 1 / 20, true, false⟩ Option.none).entries.map
        (fun e => e.lines) =
      [[⟨"Purchases / Expense", 28571 / 100, 0⟩, ⟨"Input VAT", 1429 / 100, 0⟩,
        ⟨"Cash", 0, 300⟩]]) := by
  refine ⟨?_, ?_, ?_, by decide, ?_⟩
  · intro A r inc h
    simp [splitVAT, if_pos h]
  · intro A r h
    simp [splitVAT, if_neg (not_le.mpr h)]
  · intro A r h
    simp [splitVAT, if_neg (not_le.mpr h)]
  · intro now supply
    have h1 : extractEventsWithContext now "I bought 300 AED worth of goods" =
        [⟨none, some ActionKind.buy, some 300, some Currency.AED, none, none,
          some "goods", "I bought 300 AED worth of goods"⟩] := rfl
    simp only [generateEntriesFromText, h1]
    rfl

/-- C3 witness: the rate-sign hypotheses discharged at concrete inputs. -/
theorem C3_splitVAT_witness :
    splitVAT 100 0 true = ⟨100, 0, 100⟩ ∧
    splitVAT 300 (1 / 20) true = ⟨28571 / 100, 1429 / 100, 300⟩ ∧
    splitVAT 100 (1 / 10) false = ⟨100, 10, 110⟩ := by
  refine ⟨?_, C3_splitVAT.2.2.2.1, ?_⟩
  · have h := C3_splitVAT.1 100 0 true le_rfl
    rw [h]
    decide
  · have h := C3_splitVAT.2.2.1 100 (1 / 10) (by norm_num)
    rw [h]
    decide

/-- C2: for "on 25/12/25 I borrowed 1000" the extractor yields exactly one
event {borrow, 1000, "2025-12-25"} — the date being scrubbed, 25 and 12
are never taken as amount — and, with the composer's initial defaults
(AED, VAT 5% inclusive enabled, cash mode), the synthesizer produces the
entry Dr Cash 1000 / Cr Loan Payable 1000 dated 2025-12-25, for every
current date and id source. -/
theorem C2_borrow_extraction :
    ∀ (now : CivilDate) (supply : ℕ → String),
      extractEventsWithContext now "on 25/12/25 I borrowed 1000" =
        [⟨some "2025-12-25", some ActionKind.borrow, some 1000, none, none,
          none, none, "on 25/12/25 I borrowed 1000"⟩] ∧
      (generateEntriesFromText now supply "on 25/12/25 I borrowed 1000"
          ⟨Currency.AED, true, 1 / 20, true, false⟩ Option.none).entries.map
        (fun e => (e.dateISO, e.lines)) =
        [("2025-12-25",
          [⟨"Cash", 1000, 0⟩, ⟨"Loan Payable", 0, 1000⟩])] := by
  intro now supply
  have h1 : extractEventsWithContext now "on 25/12/25 I borrowed 1000" =
      [⟨some "2025-12-25", some ActionKind.borrow, some 1000, none, none,
        none, none, "on 25/12/25 I borrowed 1000"⟩] := rfl
  refine ⟨h1, ?_⟩
  simp only [generateEntriesFromText, h1]
  rfl

/-- Any entry actually returned by `generateEntryFromEvent` passed the
balance post-condition. -/
theorem genEntry_some_balanced (idStr : String) (ev : ParsedEvent)
    (defaults : ComposerDefaults) (ctx : DCtx)
    (allowedMap : Option (AList String)) (e : JournalEntry)
    (h : generateEntryFromEvent idStr ev defaults ctx allowedMap = some e) :
    isBalancedEntry e = true := by
  cases hact : ev.action with
  | none => simp [generateEntryFromEvent, hact] at h
  | some action =>
    cases hamt : ev.amount with
    | none => simp [generateEntryFromEvent, hact, hamt] at h
    | some amount =>
      simp only [generateEntryFromEvent, hact, hamt] at h
      by_cases h0 : amount = 0
      · rw [if_pos h0] at h
        exact Option.noConfusion h
      · rw [if_neg h0] at h
        by_cases hg : |sumDebits (templateLines ev action amount defaults allowedMap) -
            sumCredits (templateLines ev action amount defaults allowedMap)| > 1 / 100
        · rw [if_pos hg] at h
          exact Option.noConfusion h
        · rw [if_neg hg] at h
          cases h
          simp only [isBalancedEntry, decide_eq_true_eq]
          exact not_lt.mp hg

/-- Every entry accumulated by the `generateEntriesFromText` loop is
balanced, given the accumulator only holds balanced entries. -/
theorem genFold_balanced (supply : ℕ → String) (defaults : ComposerDefaults)
    (allowedMap : Option (AList String)) (events : List ParsedEvent) :
    ∀ st : DCtx × ℕ × List JournalEntry,
      (∀ e ∈ st.2.2, isBalancedEntry e = true) →
      ∀ e ∈ (events.foldl (genStep supply defaults allowedMap) st).2.2,
        isBalancedEntry e = true := by
  induction events with
  | nil => intro st h e he; exact h e he
  | cons ev rest ih =>
    intro st h e he
    refine ih (genStep supply defaults allowedMap st ev) ?_ e he
    intro e' he'
    cases hgen : generateEntryFromEvent (supply st.2.1) ev defaults
        ⟨ev.dateISO.getD st.1.dateISO, ev.currency.getD st.1.currency⟩
        allowedMap with
    | none =>
      simp only [genStep, hgen] at he'
      exact h e' he'
    | some enew =>
      simp only [genStep, hgen, List.mem_append, List.mem_singleton] at he'
      rcases he' with he' | rfl
      · exact h e' he'
      · exact genEntry_some_balanced _ _ _ _ _ _ hgen

/-- C1: every JournalEntry emitted by the synthesizer satisfies
`|sum(debits) − sum(credits)| ≤ 0.01`: (1) an entry returned by
`generateEntryFromEvent` is balanced; (2) for an event with an action and
an amount the synthesizer returns exactly the fixed-template entry when
the template lines meet the 0.01 bound and null when they would violate
it; (3) every entry in the `generateEntriesFromText` output list is
balanced. -/
theorem C1_balance_invariant :
    (∀ (idStr : String) (ev : ParsedEvent) (defaults : ComposerDefaults)
        (ctx : DCtx) (allowedMap : Option (AList String)) (e : JournalEntry),
      generateEntryFromEvent idStr ev defaults ctx allowedMap = some e →
      isBalancedEntry e = true) ∧
    (∀ (idStr : String) (ev : ParsedEvent) (defaults : ComposerDefaults)
        (ctx : DCtx) (allowedMap : Option (AList String))
        (action : ActionKind) (amount : ℚ),
      ev.action = some action → ev.amount = some amount →
      generateEntryFromEvent idStr ev defaults ctx allowedMap =
        (if amount = 0 then none
         else if |sumDebits (templateLines ev action amount defaults allowedMap) -
              sumCredits (templateLines ev action amount defaults allowedMap)| >
              1 / 100 then none
         else some ⟨idStr, ev.dateISO.getD ctx.dateISO, memoOf ev action,
            ev.currency.getD ctx.currency, "entity-default", none,
            templateLines ev action amount defaults allowedMap⟩)) ∧
    (∀ (now : CivilDate) (supply : ℕ → String) (text : String)
        (defaults : ComposerDefaults) (allowed : Option (List String))
        (e : JournalEntry),
      e ∈ (generateEntriesFromText now supply text defaults allowed).entries →
      isBalancedEntry e = true) := by
  refine ⟨genEntry_some_balanced, ?_, ?_⟩
  · intro idStr ev defaults ctx allowedMap action amount hact hamt
    simp only [generateEntryFromEvent, hact, hamt]
  · intro now supply text defaults allowed e he
    unfold generateEntriesFromText at he
    exact genFold_balanced _ _ _ _ _ (by intro e' he'; cases he') e he

/-- C1 witness: the hypotheses discharged on the concrete borrow event. -/
theorem C1_balance_invariant_witness :
    isBalancedEntry ⟨"id0", "2025-12-25", "BORROW - x", Currency.AED,
      "entity-default", none,
      [⟨"Cash", 1000, 0⟩, ⟨"Loan Payable", 0, 1000⟩]⟩ = true ∧
    isBalancedEntry ⟨"id1", "2025-12-25",
      "BORROW - on 25/12/25 I borrowed 1000", Currency.AED, "entity-default",
      none, [⟨"Cash", 1000, 0⟩, ⟨"Loan Payable", 0, 1000⟩]⟩ = true := by
  constructor
  · exact C1_balance_invariant.1 "id0"
      ⟨some "2025-12-25", some ActionKind.borrow, some 1000, none, none, none,
        none, "x"⟩
      ⟨Currency.AED, true, 1 / 20, true, false⟩ ⟨"2025-01-01", Currency.AED⟩
      Option.none _ (by decide)
  · exact C1_balance_invariant.2.2 ⟨2026, 10, 11⟩ (fun _ => "id1")
      "on 25/12/25 I borrowed 1000" ⟨Currency.AED, true, 1 / 20, true, false⟩
      Option.none _ (by decide)

end DecideFriendly

-- ---------------------------------------------------------------------------
-- C6: computeBalances is invariant under permutation of the entry list
-- ---------------------------------------------------------------------------

/-- All values in a balance map are whole cents. -/
def CentMap (m : Balances) : Prop := ∀ p ∈ m, Cent p.2

theorem aget_aset {α : Type} (m : AList α) (k : String) (v : α) (k2 : String) :
    aget (aset m k v) k2 = if k = k2 then some v else aget m k2 := by
  induction m with
  | nil =>
    show aget [(k, v)] k2 = _
    by_cases h : k = k2
    · simp [aget, beq_iff_eq, h]
    · simp [aget, beq_iff_eq, h]
  | cons p rest ih =>
    show aget (if p.1 == k then (p.1, v) :: rest else p :: aset rest k v) k2 = _
    by_cases h1 : p.1 = k
    · rw [if_pos (beq_iff_eq.mpr h1)]
      by_cases h2 : k = k2
      · subst h1; subst h2
        simp [aget, beq_iff_eq]
      · have hp2 : ¬(p.1 = k2) := by rw [h1]; exact h2
        simp [aget, beq_iff_eq, hp2, h2]
    · rw [if_neg (by simpa [beq_iff_eq] using h1)]
      by_cases h2 : p.1 = k2
      · have hk2 : ¬(k = k2) := fun h => h1 (by rw [h, h2])
        simp [aget, beq_iff_eq, h2, hk2]
      · simp [aget, beq_iff_eq, h2, ih]

theorem centMap_aset {m : Balances} {k : String} {v : ℚ}
    (hm : CentMap m) (hv : Cent v) : CentMap (aset m k v) := by
  induction m with
  | nil =>
    intro p hp
    rcases List.mem_singleton.mp hp with rfl
    exact hv
  | cons q rest ih =>
    intro p hp
    rw [show aset (q :: rest) k v =
        (if q.1 == k then (q.1, v) :: rest else q :: aset rest k v) from rfl] at hp
    by_cases h1 : q.1 = k
    · rw [if_pos (beq_iff_eq.mpr h1)] at hp
      rcases List.mem_cons.mp hp with rfl | hmem
      · exact hv
      · exact hm p (List.mem_cons_of_mem q hmem)
    · rw [if_neg (by simpa [beq_iff_eq] using h1)] at hp
      rcases List.mem_cons.mp hp with rfl | hmem
      · exact hm p (List.mem_cons_self p rest)
      · exact ih (fun x hx => hm x (List.mem_cons_of_mem q hx)) p hmem

theorem cent_of_aget {m : Balances} (hm : CentMap m) {k : String} {x : ℚ}
    (h : aget m k = some x) : Cent x := by
  induction m with
  | nil => cases h
  | cons p rest ih =>
    rw [show aget (p :: rest) k =
        (if p.1 == k then some p.2 else aget rest k) from rfl] at h
    by_cases h1 : p.1 = k
    · rw [if_pos (beq_iff_eq.mpr h1)] at h
      obtain rfl := Option.some.inj h
      exact hm p (List.mem_cons_self p rest)
    · rw [if_neg (by simpa [beq_iff_eq] using h1)] at h
      exact ih (fun x hx => hm x (List.mem_cons_of_mem p hx)) h

theorem cent_zero : Cent 0 := ⟨0, by norm_num⟩

theorem aget_applyLine {c : Balances} (hm : CentMap c) (ln : JournalLine)
    (name : String) :
    aget (applyLine c ln) name =
      if ln.account = name then
        some ((aget c name).getD 0 + round2 (ln.debit - ln.credit))
      else aget c name := by
  unfold applyLine
  by_cases hpres : (aget c ln.account).isSome = true
  · obtain ⟨x, hx⟩ := Option.isSome_iff_exists.mp hpres
    have hc : Cent x := cent_of_aget hm hx
    simp only [if_pos hpres]
    by_cases hn : ln.account = name
    · subst hn
      simp only [aget_aset, eq_self_iff_true, if_true, hx, Option.getD_some]
      have harr : x + ln.debit - ln.credit = x + (ln.debit - ln.credit) := by ring
      rw [harr, cent_add_round2 hc]
    · simp only [aget_aset, if_neg hn]
  · have hnone : aget c ln.account = none := by
      cases hx : aget c ln.account
      · rfl
      · rw [hx] at hpres; simp at hpres
    simp only [if_neg hpres]
    by_cases hn : ln.account = name
    · subst hn
      simp only [aget_aset, eq_self_iff_true, if_true, hnone, Option.getD_some,
        Option.getD_none]
      have harr : (0 : ℚ) + ln.debit - ln.credit = 0 + (ln.debit - ln.credit) := by
        ring
      rw [harr, cent_add_round2 cent_zero]
    · simp only [aget_aset, if_neg hn]

theorem centMap_applyLine {c : Balances} (hm : CentMap c) (ln : JournalLine) :
    CentMap (applyLine c ln) := by
  unfold applyLine
  by_cases hpres : (aget c ln.account).isSome = true
  · simp only [if_pos hpres]
    exact centMap_aset hm (cent_round2 _)
  · simp only [if_neg hpres]
    exact centMap_aset (centMap_aset hm cent_zero) (cent_round2 _)

/-- The signed, rounded net movement of `name` across a list of lines. -/
def netLines (name : String) (lns : List JournalLine) : ℚ :=
  ((lns.filter (fun l => l.account == name)).map
    (fun l => round2 (l.debit - l.credit))).sum

/-- Combination of a starting balance, a touched flag, and a net movement:
the shape of a closing-map lookup after applying lines. -/
def combineOpt (o : Option ℚ) (t : Bool) (net : ℚ) : Option ℚ :=
  match o with
  | some x => some (x + net)
  | none => if t then some net else none

theorem netLines_zero_of_not_touches {name : String} {lns : List JournalLine}
    (h : lns.any (fun l => l.account == name) = false) : netLines name lns = 0 := by
  have : lns.filter (fun l => l.account == name) = [] := by
    rw [List.filter_eq_nil_iff]
    intro a ha
    have := List.any_eq_false.mp h a ha
    simpa using this
  simp [netLines, this]

theorem combineOpt_combineOpt (o : Option ℚ) (t1 t2 : Bool) (n1 n2 : ℚ)
    (hz : t1 = false → n1 = 0) :
    combineOpt (combineOpt o t1 n1) t2 n2 = combineOpt o (t1 || t2) (n1 + n2) := by
  cases o with
  | some x => simp [combineOpt, add_assoc]
  | none =>
    cases t1 with
    | true => simp [combineOpt]
    | false =>
      rw [hz rfl]
      simp [combineOpt]

theorem aget_foldl_applyLine (lns : List JournalLine) :
    ∀ c : Balances, CentMap c → ∀ name,
      aget (lns.foldl applyLine c) name =
        combineOpt (aget c name) (lns.any (fun l => l.account == name))
          (netLines name lns) := by
  induction lns with
  | nil =>
    intro c _ name
    cases h : aget c name <;> simp [combineOpt, netLines, h]
  | cons ln rest ih =>
    intro c hc name
    have hstep := aget_applyLine hc ln name
    rw [List.foldl_cons, ih (applyLine c ln) (centMap_applyLine hc ln) name, hstep]
    by_cases hn : ln.account = name
    · have hfilter : netLines name (ln :: rest) =
          round2 (ln.debit - ln.credit) + netLines name rest := by
        simp [netLines, List.filter_cons, beq_iff_eq, hn]
      have hany : (ln :: rest).any (fun l => l.account == name) = true := by
        simp [List.any_cons, beq_iff_eq, hn]
      rw [if_pos hn, hfilter, hany]
      cases ho : aget c name with
      | some x => simp [combineOpt, ho, add_assoc]
      | none =>
        cases ht : rest.any (fun l => l.account == name) with
        | true => simp [combineOpt, ho, ht]
        | false =>
          rw [netLines_zero_of_not_touches ht]
          simp [combineOpt, ho, ht]
    · have hfilter : netLines name (ln :: rest) = netLines name rest := by
        simp [netLines, List.filter_cons, beq_iff_eq, hn]
      have hany : (ln :: rest).any (fun l => l.account == name) =
          rest.any (fun l => l.account == name) := by
        simp [List.any_cons, beq_iff_eq, hn]
      rw [if_neg hn, hfilter, hany]

theorem centMap_applyEntry {c : Balances} (hm : CentMap c) (e : JournalEntry) :
    CentMap (applyEntry c e) := by
  unfold applyEntry
  generalize e.lines = lns
  induction lns generalizing c with
  | nil => exact hm
  | cons ln rest ih => exact ih (centMap_applyLine hm ln)

/-- Whether an entry touches the account. -/
def touchesE (name : String) (e : JournalEntry) : Bool :=
  e.lines.any (fun l => l.account == name)

/-- The signed, rounded net movement of `name` across a list of entries. -/
def netEntries (name : String) (es : List JournalEntry) : ℚ :=
  (es.map (fun e => netLines name e.lines)).sum

theorem aget_applyEntries (es : List JournalEntry) :
    ∀ c : Balances, CentMap c → ∀ name,
      aget (es.foldl applyEntry c) name =
        combineOpt (aget c name) (es.any (touchesE name)) (netEntries name es) := by
  induction es with
  | nil =>
    intro c _ name
    cases h : aget c name <;> simp [combineOpt, netEntries, h]
  | cons e rest ih =>
    intro c hc name
    rw [List.foldl_cons, ih (applyEntry c e) (centMap_applyEntry hc e) name]
    have hentry : aget (applyEntry c e) name =
        combineOpt (aget c name) (touchesE name e) (netLines name e.lines) :=
      aget_foldl_applyLine e.lines c hc name
    rw [hentry,
      combineOpt_combineOpt (aget c name)
        (touchesE name e) (rest.any (touchesE name))
        (netLines name e.lines) (netEntries name rest)
        (fun h => netLines_zero_of_not_touches h)]
    have hany : (e :: rest).any (touchesE name) =
        (touchesE name e || rest.any (touchesE name)) := by
      simp [List.any_cons, touchesE]
    have hnet : netEntries name (e :: rest) =
        netLines name e.lines + netEntries name rest := by
      simp [netEntries]
    rw [hany, hnet]

theorem any_perm {α : Type} (p : α → Bool) {l1 l2 : List α} (h : l1.Perm l2) :
    l1.any p = l2.any p := by
  cases ha : l1.any p <;> cases hb : l2.any p <;> try rfl
  · obtain ⟨x, hx, hpx⟩ := List.any_eq_true.mp hb
    have := List.any_eq_false.mp ha x (h.symm.subset hx)
    rw [hpx] at this
    cases this rfl
  · obtain ⟨x, hx, hpx⟩ := List.any_eq_true.mp ha
    have := List.any_eq_false.mp hb x (h.subset hx)
    rw [hpx] at this
    cases this rfl

theorem netEntries_perm (name : String) {l1 l2 : List JournalEntry}
    (h : l1.Perm l2) : netEntries name l1 = netEntries name l2 := by
  unfold netEntries
  exact (h.map (fun e => netLines name e.lines)).sum_eq

theorem centMap_chartInit (accounts : List Account) :
    CentMap (accounts.foldl
      (fun m a => aset m a.name (round2 a.openingBalance)) []) := by
  have step : ∀ (l : List Account) (m : Balances), CentMap m →
      CentMap (l.foldl (fun m a => aset m a.name (round2 a.openingBalance)) m) := by
    intro l
    induction l with
    | nil => intro m hm; exact hm
    | cons a rest ih =>
      intro m hm
      exact ih _ (centMap_aset hm (cent_round2 _))
  exact step accounts [] (by intro p hp; cases hp)

/-- C6: permuting the entry list never changes any closing balance
computed by `computeBalances`. -/
theorem C6_computeBalances_perm :
    ∀ (accounts : List Account) (l1 l2 : List JournalEntry), l1.Perm l2 →
      ∀ name, aget (computeBalances accounts l1).closing name =
        aget (computeBalances accounts l2).closing name := by
  intro accounts l1 l2 hperm name
  show aget (l1.foldl applyEntry _) name = aget (l2.foldl applyEntry _) name
  rw [aget_applyEntries l1 _ (centMap_chartInit accounts) name,
    aget_applyEntries l2 _ (centMap_chartInit accounts) name,
    any_perm (touchesE name) hperm, netEntries_perm name hperm]

/-- C6 witness: a concrete two-entry swap. -/
theorem C6_computeBalances_perm_witness :
    aget (computeBalances [⟨"a1", "Cash", NormalSide.debit, 5⟩]
      [⟨"e1", "2025-01-01", "m1", Currency.AED, "E", none,
        [⟨"Cash", 7, 0⟩]⟩,
       ⟨"e2", "2025-01-02", "m2", Currency.AED, "E", none,
        [⟨"Cash", 0, 3⟩]⟩]).closing "Cash" =
    aget (computeBalances [⟨"a1", "Cash", NormalSide.debit, 5⟩]
      [⟨"e2", "2025-01-02", "m2", Currency.AED, "E", none,
        [⟨"Cash", 0, 3⟩]⟩,
       ⟨"e1", "2025-01-01", "m1", Currency.AED, "E", none,
        [⟨"Cash", 7, 0⟩]⟩]).closing "Cash" :=
  C6_computeBalances_perm _ _ _
    (List.Perm.swap _ _ _) "Cash"

-- ---------------------------------------------------------------------------
-- C4: resolver step order and the no-invention property
-- ---------------------------------------------------------------------------

theorem mem_aset {α : Type} {m : AList α} {k : String} {v : α} :
    ∀ p ∈ aset m k v, p ∈ m ∨ p.2 = v := by
  induction m with
  | nil =>
    intro p hp
    rcases List.mem_singleton.mp hp with rfl
    exact Or.inr rfl
  | cons q rest ih =>
    intro p hp
    rw [show aset (q :: rest) k v =
        (if q.1 == k then (q.1, v) :: rest else q :: aset rest k v) from rfl] at hp
    by_cases h1 : q.1 = k
    · rw [if_pos (beq_iff_eq.mpr h1)] at hp
      rcases List.mem_cons.mp hp with rfl | hmem
      · exact Or.inr rfl
      · exact Or.inl (List.mem_cons_of_mem q hmem)
    · rw [if_neg (by simpa [beq_iff_eq] using h1)] at hp
      rcases List.mem_cons.mp hp with rfl | hmem
      · exact Or.inl (List.mem_cons_self p rest)
      · rcases ih p hmem with h | h
        · exact Or.inl (List.mem_cons_of_mem q h)
        · exact Or.inr h

theorem aget_mem_values {α : Type} {m : AList α} {k : String} {v : α}
    (h : aget m k = some v) : v ∈ m.map (·.2) := by
  induction m with
  | nil => cases h
  | cons p rest ih =>
    rw [show aget (p :: rest) k =
        (if p.1 == k then some p.2 else aget rest k) from rfl] at h
    by_cases h1 : p.1 = k
    · rw [if_pos (beq_iff_eq.mpr h1)] at h
      obtain rfl := Option.some.inj h
      exact List.mem_map_of_mem _ (List.mem_cons_self p rest)
    · rw [if_neg (by simpa [beq_iff_eq] using h1)] at h
      simpa using Or.inr (by simpa using ih h)

theorem byNormOf_values (accounts : List Account) :
    ∀ p ∈ byNormOf accounts, p.2 ∈ accounts.map (·.name) := by
  have step : ∀ (l : List Account) (m : AList String) (names : List String),
      (∀ p ∈ m, p.2 ∈ names) → (∀ a ∈ l, a.name ∈ names) →
      ∀ p ∈ l.foldl (fun m a => aset m (normalizeName a.name) a.name) m,
        p.2 ∈ names := by
    intro l
    induction l with
    | nil => intro m names hm _ p hp; exact hm p hp
    | cons a rest ih =>
      intro m names hm hl p hp
      refine ih _ names ?_ (fun x hx => hl x (List.mem_cons_of_mem a hx)) p hp
      intro q hq
      rcases mem_aset q hq with h | h
      · exact hm q h
      · rw [h]; exact hl a (List.mem_cons_self a rest)
  intro p hp
  exact step accounts [] (accounts.map (·.name)) (fun q hq => by cases hq)
    (fun a ha => List.mem_map_of_mem _ ha) p hp

theorem aget_byNormOf_mem {accounts : List Account} {k y : String}
    (h : aget (byNormOf accounts) k = some y) : y ∈ accounts.map (·.name) := by
  have := aget_mem_values h
  obtain ⟨p, hp, rfl⟩ := List.mem_map.mp this
  exact byNormOf_values accounts p hp

theorem purchasesFallback_mem {accounts : List Account} {fb : String}
    (h : purchasesFallback accounts = some fb) : fb ∈ accounts.map (·.name) := by
  unfold purchasesFallback at h
  cases h1 : aget (byNormOf accounts) (normalizeName "Purchases / Expense") with
  | some y =>
    rw [h1] at h
    obtain rfl := Option.some.inj h
    exact aget_byNormOf_mem h1
  | none =>
    rw [h1] at h
    simp only [Option.orElse] at h
    exact aget_byNormOf_mem h

theorem bestMatch_mem (accounts : List Account) (raw : String) {n : String}
    (h : (bestMatch accounts raw).1 = some n) : n ∈ accounts.map (·.name) := by
  have step : ∀ (l : List Account) (b : Option String × ℚ),
      (l.foldl (fun b a =>
        let sc := similarity raw a.name
        if sc > b.2 then (some a.name, sc) else b) b).1 = some n →
      b.1 = some n ∨ n ∈ l.map (·.name) := by
    intro l
    induction l with
    | nil => intro b hb; exact Or.inl hb
    | cons a rest ih =>
      intro b hb
      rw [List.foldl_cons] at hb
      rcases ih _ hb with h | h
      · dsimp only at h
        by_cases hsc : similarity raw a.name > b.2
        · rw [if_pos hsc] at h
          obtain rfl := Option.some.inj h
          exact Or.inr (by simp)
        · rw [if_neg hsc] at h
          exact Or.inl h
      · exact Or.inr (List.mem_cons_of_mem _ h)
  rcases step accounts (none, 0) h with h | h
  · cases h
  · exact h

theorem resolveLine_account (accounts : List Account) (minScore : ℚ)
    (st : ResolveState) (ln : JournalLine) :
    ((resolveLine accounts minScore st ln).1).account ∈ accounts.map (·.name) ∨
    (resolveLine accounts minScore st ln).1 = ln := by
  have fallbackCase :
      ((resolveLine.resolveLineFallback accounts st ln (trimS ln.account)).1).account ∈
        accounts.map (·.name) ∨
      (resolveLine.resolveLineFallback accounts st ln (trimS ln.account)).1 = ln := by
    cases hfb : purchasesFallback accounts with
    | some fb =>
      by_cases hd : ln.debit > 0 ∧ ln.credit = 0
      · simp only [resolveLine.resolveLineFallback, hfb, if_pos hd]
        exact Or.inl (purchasesFallback_mem hfb)
      · simp only [resolveLine.resolveLineFallback, hfb, if_neg hd]
        exact Or.inr trivial
    | none =>
      simp only [resolveLine.resolveLineFallback, hfb]
      exact Or.inr trivial
  cases hexact : aget (byNormOf accounts) (normalizeName (trimS ln.account)) with
  | some canon =>
    simp only [resolveLine, hexact]
    exact Or.inl (aget_byNormOf_mem hexact)
  | none =>
    cases hbest : bestMatch accounts (trimS ln.account) with
    | mk bn sc =>
      cases bn with
      | some n =>
        by_cases hth : sc ≥ minScore
        · simp only [resolveLine, hexact, hbest, if_pos hth]
          exact Or.inl (bestMatch_mem accounts _ (by rw [hbest]))
        · simp only [resolveLine, hexact, hbest, if_neg hth]
          exact fallbackCase
      | none =>
        simp only [resolveLine, hexact, hbest]
        exact fallbackCase

theorem mapWithState_rel {σ α β : Type} (f : σ → α → β × σ)
    (P : α → β → Prop) (hf : ∀ s x, P x (f s x).1) :
    ∀ (l : List α) (s : σ), ∀ y ∈ (mapWithState f s l).1, ∃ x ∈ l, P x y := by
  intro l
  induction l with
  | nil => intro s y hy; cases hy
  | cons x xs ih =>
    intro s y hy
    simp only [mapWithState] at hy
    rcases List.mem_cons.mp hy with rfl | hmem
    · exact ⟨x, List.mem_cons_self x xs, hf s x⟩
    · obtain ⟨x', hx', hp⟩ := ih _ y hmem
      exact ⟨x', List.mem_cons_of_mem x hx', hp⟩

/-- C4 (amended): the resolver applies, per line: (1) exact normalized
match; (2) best fuzzy score ≥ threshold; (3) pure-debit fallback to the
chart's default expense account WHEN the chart contains one
("Purchases / Expense", or else "Purchases", after normalization);
(4) otherwise the line is left unchanged and its raw name recorded as
unresolved. Moreover no account name absent from the chart is ever
introduced: every resolved line names a chart account or keeps its
original account string. -/
theorem C4_resolution_order :
    (∀ (accounts : List Account) (th : ℚ) (st : ResolveState)
        (ln : JournalLine) (canon : String),
      aget (byNormOf accounts) (normalizeName (trimS ln.account)) = some canon →
      resolveLine accounts th st ln = ({ ln with account := canon }, st)) ∧
    (∀ (accounts : List Account) (th : ℚ) (st : ResolveState)
        (ln : JournalLine) (bn : String) (sc : ℚ),
      aget (byNormOf accounts) (normalizeName (trimS ln.account)) = none →
      bestMatch accounts (trimS ln.account) = (some bn, sc) → sc ≥ th →
      resolveLine accounts th st ln =
        ({ ln with account := bn },
          (st.1, aset st.2 (trimS ln.account) bn))) ∧
    (∀ (accounts : List Account) (th : ℚ) (st : ResolveState)
        (ln : JournalLine) (fb : String),
      aget (byNormOf accounts) (normalizeName (trimS ln.account)) = none →
      (∀ bn sc, bestMatch accounts (trimS ln.account) = (some bn, sc) → sc < th) →
      purchasesFallback accounts = some fb →
      ln.debit > 0 → ln.credit = 0 →
      resolveLine accounts th st ln =
        ({ ln with account := fb },
          (st.1, aset st.2 (trimS ln.account) fb))) ∧
    (∀ (accounts : List Account) (th : ℚ) (st : ResolveState)
        (ln : JournalLine),
      aget (byNormOf accounts) (normalizeName (trimS ln.account)) = none →
      (∀ bn sc, bestMatch accounts (trimS ln.account) = (some bn, sc) → sc < th) →
      (purchasesFallback accounts = none ∨ ¬(ln.debit > 0 ∧ ln.credit = 0)) →
      resolveLine accounts th st ln =
        (ln, (if st.1.contains (trimS ln.account) then st.1
              else st.1 ++ [trimS ln.account], st.2))) ∧
    (∀ (entries : List JournalEntry) (accounts : List Account)
        (minScore : Option ℚ) (e' : JournalEntry),
      e' ∈ (resolveClosestAccounts entries accounts minScore).entries →
      ∀ l' ∈ e'.lines, l'.account ∈ accounts.map (·.name) ∨
        ∃ e ∈ entries, ∃ l ∈ e.lines, l'.account = l.account) := by
  refine ⟨?_, ?_, ?_, ?_, ?_⟩
  · intro accounts th st ln canon hexact
    simp only [resolveLine, hexact]
  · intro accounts th st ln bn sc hexact hbest hth
    simp only [resolveLine, hexact, hbest, if_pos hth]
  · intro accounts th st ln fb hexact hbest hfb hd hc
    have hfall : resolveLine.resolveLineFallback accounts st ln (trimS ln.account) =
        ({ ln with account := fb },
          (st.1, aset st.2 (trimS ln.account) fb)) := by
      simp only [resolveLine.resolveLineFallback, hfb, if_pos (And.intro hd hc)]
    cases hb : bestMatch accounts (trimS ln.account) with
    | mk bn sc =>
      cases bn with
      | some n =>
        simp only [resolveLine, hexact, hb, if_neg (not_le.mpr (hbest n sc hb))]
        exact hfall
      | none =>
        simp only [resolveLine, hexact, hb]
        exact hfall
  · intro accounts th st ln hexact hbest hother
    have hfall : resolveLine.resolveLineFallback accounts st ln (trimS ln.account) =
        (ln, (if st.1.contains (trimS ln.account) then st.1
              else st.1 ++ [trimS ln.account], st.2)) := by
      rcases hother with hfb | hd
      · simp only [resolveLine.resolveLineFallback, hfb]
      · cases hfb : purchasesFallback accounts with
        | some fb => simp only [resolveLine.resolveLineFallback, hfb, if_neg hd]
        | none => simp only [resolveLine.resolveLineFallback, hfb]
    cases hb : bestMatch accounts (trimS ln.account) with
    | mk bn sc =>
      cases bn with
      | some n =>
        simp only [resolveLine, hexact, hb, if_neg (not_le.mpr (hbest n sc hb))]
        exact hfall
      | none =>
        simp only [resolveLine, hexact, hb]
        exact hfall
  · intro entries accounts minScore e' he' l' hl'
    unfold resolveClosestAccounts at he'
    simp only at he'
    have houter := mapWithState_rel
      (fun (st : ResolveState) (e : JournalEntry) =>
        let p := mapWithState (resolveLine accounts (minScore.getD (72 / 100))) st e.lines
        ({ e with lines := p.1 }, p.2))
      (fun e e2 => ∀ l2 ∈ e2.lines, l2.account ∈ accounts.map (·.name) ∨
        ∃ l ∈ e.lines, l2.account = l.account)
      ?_ entries ([], []) e' he'
    · obtain ⟨e, he, hp⟩ := houter
      rcases hp l' hl' with h | ⟨l, hl, hacc⟩
      · exact Or.inl h
      · exact Or.inr ⟨e, he, l, hl, hacc⟩
    · intro s e l2 hl2
      have hinner := mapWithState_rel
        (resolveLine accounts (minScore.getD (72 / 100)))
        (fun l l2 => l2.account ∈ accounts.map (·.name) ∨ l2.account = l.account)
        ?_ e.lines s l2 hl2
      · obtain ⟨l, hl, h⟩ := hinner
        rcases h with h | h
        · exact Or.inl h
        · exact Or.inr ⟨l, hl, h⟩
      · intro s2 x
        rcases resolveLine_account accounts (minScore.getD (72 / 100)) s2 x with h | h
        · exact Or.inl h
        · exact Or.inr (by rw [h])

-- ---------------------------------------------------------------------------
-- C7 and C10: consolidation engine
-- ---------------------------------------------------------------------------

/-- Concrete intercompany scenario: parent with AR +500, subsidiary with
AP −500, elimination enabled on the group policy. -/
def icPolicy : IntercompanyPolicy :=
  ⟨true, "Intercompany Receivable", "Intercompany Payable",
   "Intercompany Loan Receivable", "Intercompany Loan Payable"⟩

def entParent : Entity :=
  ⟨"E1", "Parent", Currency.AED, [],
   ⟨100, ConsolidationMethod.none, Currency.AED, icPolicy⟩⟩

def entSub : Entity :=
  ⟨"E2", "Sub", Currency.AED, [],
   ⟨100, ConsolidationMethod.full, Currency.AED, icPolicy⟩⟩

def scenarioC7 : ConsolidateParams :=
  ⟨[entParent, entSub],
   [("E1", [⟨"a1", "Intercompany Receivable", NormalSide.debit, 500⟩]),
    ("E2", [⟨"a2", "Intercompany Payable", NormalSide.credit, -500⟩])],
   [], "E1"⟩

section DecideFriendly2

set_option maxRecDepth 100000

attribute [local semireducible] Rat.mul Rat.add Rat.sub Rat.inv

/-- C7: `eliminatePair` subtracts the smaller absolute magnitude from both
sides exactly when the two balances have opposite signs (positive = net
debit, negative = net credit), recording one elimination record per side,
and leaves same-signed or zero pairs untouched; on the concrete +500 AR /
−500 AP group both accounts close at 0 with one record each. -/
theorem C7_elimination :
    (∀ (st : Balances × List ElimRecord) (a b note : String),
      eliminatePair a b note st =
        (if (aget st.1 a).getD 0 > 0 ∧ (aget st.1 b).getD 0 < 0 then
          (addTo (addTo st.1 a
              (-(min |(aget st.1 a).getD 0| |(aget st.1 b).getD 0|))) b
              (min |(aget st.1 a).getD 0| |(aget st.1 b).getD 0|),
            st.2 ++ [⟨a, min |(aget st.1 a).getD 0| |(aget st.1 b).getD 0|, note⟩,
              ⟨b, min |(aget st.1 a).getD 0| |(aget st.1 b).getD 0|, note⟩])
         else if (aget st.1 a).getD 0 < 0 ∧ (aget st.1 b).getD 0 > 0 then
          (addTo (addTo st.1 a
              (min |(aget st.1 a).getD 0| |(aget st.1 b).getD 0|)) b
              (-(min |(aget st.1 a).getD 0| |(aget st.1 b).getD 0|)),
            st.2 ++ [⟨a, min |(aget st.1 a).getD 0| |(aget st.1 b).getD 0|, note⟩,
              ⟨b, min |(aget st.1 a).getD 0| |(aget st.1 b).getD 0|, note⟩])
         else st)) ∧
    (consolidateGroup scenarioC7).consolidatedClosing =
      [("Intercompany Receivable", 0), ("Intercompany Payable", 0)] ∧
    (consolidateGroup scenarioC7).eliminationsApplied =
      [⟨"Intercompany Receivable", 500, "Eliminate intercompany A/R vs A/P"⟩,
       ⟨"Intercompany Payable", 500, "Eliminate intercompany A/R vs A/P"⟩] := by
  refine ⟨?_, by decide, by decide⟩
  intro st a b note
  by_cases h0 : (aget st.1 a).getD 0 = 0 ∨ (aget st.1 b).getD 0 = 0
  · have c1 : ¬((aget st.1 a).getD 0 > 0 ∧ (aget st.1 b).getD 0 < 0) := by
      rcases h0 with h | h
      · rintro ⟨ha, _⟩; rw [h] at ha; exact lt_irrefl 0 ha
      · rintro ⟨_, hb⟩; rw [h] at hb; exact lt_irrefl 0 hb
    have c2 : ¬((aget st.1 a).getD 0 < 0 ∧ (aget st.1 b).getD 0 > 0) := by
      rcases h0 with h | h
      · rintro ⟨ha, _⟩; rw [h] at ha; exact lt_irrefl 0 ha
      · rintro ⟨_, hb⟩; rw [h] at hb; exact lt_irrefl 0 hb
    rw [if_neg c1, if_neg c2]
    simp only [eliminatePair, if_pos h0]
  · simp only [eliminatePair, if_neg h0]

/-- C10: when the group entity id matches no entity, `consolidateGroup`
returns the all-empty result (no inclusion, no balances, no
eliminations) rather than failing. -/
theorem C10_unknown_group :
    ∀ p : ConsolidateParams, (∀ e ∈ p.entities, e.id ≠ p.groupEntityId) →
      consolidateGroup p = emptyConsolidation := by
  intro p h
  have hf : p.entities.find? (fun e => e.id == p.groupEntityId) = none := by
    rw [List.find?_eq_none]
    intro x hx
    simpa [beq_iff_eq] using h x hx
  simp only [consolidateGroup, hf]

/-- C10 witness: a concrete group id matching neither entity. -/
theorem C10_unknown_group_witness :
    consolidateGroup ⟨[entParent, entSub], [], [], "E-missing"⟩ =
      emptyConsolidation :=
  C10_unknown_group ⟨[entParent, entSub], [], [], "E-missing"⟩ (by decide)

end DecideFriendly2

-- ---------------------------------------------------------------------------
-- C8: schedule markers, dedupe suppression, idempotence
-- ---------------------------------------------------------------------------

theorem startsWithL_refl (l : List Char) : startsWithL l l = true := by
  induction l with
  | nil => rfl
  | cons c rest ih => simp [startsWithL, ih]

theorem containsSub_append_self (p n : List Char) :
    containsSub n (p ++ n) = true := by
  induction p with
  | nil =>
    cases n with
    | nil => rfl
    | cons c rest => simp [containsSub, startsWithL_refl]
  | cons c p' ih => simp [containsSub, ih]

/-- A string that ends with `marker` contains `marker`. -/
theorem strIncludes_append_self (pre marker : String) :
    strIncludes (pre ++ marker) marker = true := by
  unfold strIncludes chars
  rw [String.data_append]
  exact containsSub_append_self _ _

theorem mem_savedMemos {saved : List JournalEntry} {entityId : String}
    {e : JournalEntry} (he : e ∈ saved) (hid : e.entityId = entityId) :
    e.memo ∈ savedMemos saved entityId := by
  unfold savedMemos
  exact List.mem_map_of_mem _ (List.mem_filter.mpr ⟨he, by simp [hid]⟩)

theorem assetStep_suppressed (period entityId : String) (memos : List String)
    (idStr : String) (a : AssetSchedule)
    (h : memos.any (fun m => strIncludes m (scheduleMarker "DEP" a.id period)) = true) :
    assetStep period entityId memos idStr a = none := by
  simp [assetStep, h]

theorem loanStep_suppressed (period entityId : String) (memos : List String)
    (idStr : String) (l : LiabilitySchedule)
    (h : memos.any (fun m => strIncludes m (scheduleMarker "LOAN" l.id period)) = true) :
    loanStep period entityId memos idStr l = none := by
  simp [loanStep, h]

theorem emitFold_append {α : Type} (f : String → α → Option JournalEntry)
    (supply : ℕ → String) (l1 l2 : List α) :
    ∀ st, emitFold f supply st (l1 ++ l2) =
      emitFold f supply (emitFold f supply st l1) l2 := by
  induction l1 with
  | nil => intro st; rfl
  | cons x xs ih =>
    intro st
    cases hfx : f (supply st.2) x with
    | some e => simp only [List.cons_append, emitFold, hfx]; exact ih _
    | none => simp only [List.cons_append, emitFold, hfx]; exact ih _

set_option maxHeartbeats 1000000 in
/-- C8: (a) generation is a pure function — two calls on identical inputs
agree; (b) every emitted depreciation/loan entry's memo contains the
deterministic marker `[AUTO:kind:scheduleId:period]` of its schedule and
period; (c) a saved memo of the entity containing that exact marker makes
the step emit nothing; (d) list-level suppression: with such a saved
entry, the output over a schedule list containing that asset equals the
output with the asset removed. -/
theorem C8_schedule_dedupe :
    (∀ (supply : ℕ → String) (period entityId : String)
        (saved : List JournalEntry) (schedules : SchedulesState),
      generateScheduledEntriesForPeriod supply period entityId saved schedules =
      generateScheduledEntriesForPeriod supply period entityId saved schedules) ∧
    (∀ (period entityId : String) (memos : List String) (idStr : String)
        (a : AssetSchedule) (e : JournalEntry),
      assetStep period entityId memos idStr a = some e →
      strIncludes e.memo (scheduleMarker "DEP" a.id period) = true) ∧
    (∀ (period entityId : String) (memos : List String) (idStr : String)
        (l : LiabilitySchedule) (e : JournalEntry),
      loanStep period entityId memos idStr l = some e →
      strIncludes e.memo (scheduleMarker "LOAN" l.id period) = true) ∧
    (∀ (period entityId : String) (memos : List String) (idStr : String)
        (a : AssetSchedule),
      memos.any (fun m => strIncludes m (scheduleMarker "DEP" a.id period)) = true →
      assetStep period entityId memos idStr a = none) ∧
    (∀ (period entityId : String) (memos : List String) (idStr : String)
        (l : LiabilitySchedule),
      memos.any (fun m => strIncludes m (scheduleMarker "LOAN" l.id period)) = true →
      loanStep period entityId memos idStr l = none) ∧
    (∀ (supply : ℕ → String) (period entityId : String)
        (saved : List JournalEntry) (l1 l2 : List AssetSchedule)
        (a : AssetSchedule) (liabs : List LiabilitySchedule),
      (∃ e ∈ saved, e.entityId = entityId ∧
        strIncludes e.memo (scheduleMarker "DEP" a.id period) = true) →
      generateScheduledEntriesForPeriod supply period entityId saved
        ⟨l1 ++ a :: l2, liabs⟩ =
      generateScheduledEntriesForPeriod supply period entityId saved
        ⟨l1 ++ l2, liabs⟩) := by
  refine ⟨fun _ _ _ _ _ => rfl, ?_, ?_, assetStep_suppressed, loanStep_suppressed, ?_⟩
  · intro period entityId memos idStr a e h
    unfold assetStep at h
    dsimp only at h
    split_ifs at h
    all_goals obtain rfl := Option.some.inj h
    all_goals exact strIncludes_append_self _ _
  · intro period entityId memos idStr l e h
    unfold loanStep at h
    dsimp only at h
    split_ifs at h
    all_goals obtain rfl := Option.some.inj h
    all_goals exact strIncludes_append_self _ _
  · intro supply period entityId saved l1 l2 a liabs h
    obtain ⟨e, he, hid, hmark⟩ := h
    have hany : (savedMemos saved entityId).any
        (fun m => strIncludes m (scheduleMarker "DEP" a.id period)) = true :=
      List.any_eq_true.mpr ⟨e.memo, mem_savedMemos he hid, hmark⟩
    by_cases hp : isPeriod period
    · simp only [generateScheduledEntriesForPeriod, hp, Bool.not_true,
        Bool.false_eq_true, if_false]
      have hskip : ∀ st : List JournalEntry × ℕ,
          emitFold (assetStep period entityId (savedMemos saved entityId)) supply
            st (a :: l2) =
          emitFold (assetStep period entityId (savedMemos saved entityId)) supply
            st l2 := by
        intro st
        have hnone := assetStep_suppressed period entityId
          (savedMemos saved entityId) (supply st.2) a hany
        simp only [emitFold, hnone]
      rw [emitFold_append, emitFold_append, hskip]
    · simp only [generateScheduledEntriesForPeriod, hp, Bool.not_false, if_true]

-- ---------------------------------------------------------------------------
-- Determinism up to generated ids (the makeId / Math.random source)
-- ---------------------------------------------------------------------------

/-- Strip the generated (`makeId`) id from an entry. -/
def eraseId (e : JournalEntry) : JournalEntry := { e with id := "" }

set_option maxHeartbeats 1000000 in
lemma assetStep_eraseId (period entityId : String) (memos : List String)
    (i1 i2 : String) (a : AssetSchedule) :
    (assetStep period entityId memos i1 a).map eraseId =
    (assetStep period entityId memos i2 a).map eraseId := by
  unfold assetStep
  dsimp only
  simp only [apply_ite (Option.map eraseId)]
  rfl

set_option maxHeartbeats 1000000 in
lemma loanStep_eraseId (period entityId : String) (memos : List String)
    (i1 i2 : String) (l : LiabilitySchedule) :
    (loanStep period entityId memos i1 l).map eraseId =
    (loanStep period entityId memos i2 l).map eraseId := by
  unfold loanStep
  dsimp only
  simp only [apply_ite (Option.map eraseId)]
  rfl

lemma emitFold_eraseId {α : Type} (f1 f2 : String → α → Option JournalEntry)
    (hf : ∀ i1 i2 x, (f1 i1 x).map eraseId = (f2 i2 x).map eraseId)
    (s1 s2 : ℕ → String) (xs : List α) :
    ∀ st1 st2 : List JournalEntry × ℕ,
      st1.1.map eraseId = st2.1.map eraseId → st1.2 = st2.2 →
      (emitFold f1 s1 st1 xs).1.map eraseId =
        (emitFold f2 s2 st2 xs).1.map eraseId ∧
      (emitFold f1 s1 st1 xs).2 = (emitFold f2 s2 st2 xs).2 := by
  induction xs with
  | nil => intro st1 st2 h1 h2; exact ⟨h1, h2⟩
  | cons x xs ih =>
    intro st1 st2 h1 h2
    have hfx := hf (s1 st1.2) (s2 st2.2) x
    cases hx1 : f1 (s1 st1.2) x with
    | none =>
      cases hx2 : f2 (s2 st2.2) x with
      | none =>
        simp only [emitFold, hx1, hx2]
        exact ih st1 st2 h1 h2
      | some e2 => rw [hx1, hx2] at hfx; simp at hfx
    | some e1 =>
      cases hx2 : f2 (s2 st2.2) x with
      | none => rw [hx1, hx2] at hfx; simp at hfx
      | some e2 =>
        rw [hx1, hx2] at hfx
        have he : eraseId e1 = eraseId e2 := by simpa using hfx
        simp only [emitFold, hx1, hx2]
        refine ih (st1.1 ++ [e1], st1.2 + 1) (st2.1 ++ [e2], st2.2 + 1) ?_ ?_
        · simp only [List.map_append, List.map_cons, List.map_nil, h1, he]
        · simp [h2]

lemma genSched_eraseId (s1 s2 : ℕ → String) (period entityId : String)
    (saved : List JournalEntry) (schedules : SchedulesState) :
    (generateScheduledEntriesForPeriod s1 period entityId saved schedules).map eraseId =
    (generateScheduledEntriesForPeriod s2 period entityId saved schedules).map eraseId := by
  by_cases hp : isPeriod period
  · simp only [generateScheduledEntriesForPeriod, hp, Bool.not_true,
      Bool.false_eq_true, if_false]
    have h1 := emitFold_eraseId
      (assetStep period entityId (savedMemos saved entityId))
      (assetStep period entityId (savedMemos saved entityId))
      (fun i1 i2 x => assetStep_eraseId period entityId (savedMemos saved entityId) i1 i2 x)
      s1 s2 schedules.assets ([], 0) ([], 0) rfl rfl
    exact (emitFold_eraseId
      (loanStep period entityId (savedMemos saved entityId))
      (loanStep period entityId (savedMemos saved entityId))
      (fun i1 i2 x => loanStep_eraseId period entityId (savedMemos saved entityId) i1 i2 x)
      s1 s2 schedules.liabilities _ _ h1.1 h1.2).1
  · simp only [generateScheduledEntriesForPeriod, hp, Bool.not_false, if_true]

lemma genEntry_eraseId (i1 i2 : String) (ev : ParsedEvent)
    (defaults : ComposerDefaults) (ctx : DCtx) (allowed : Option (AList String)) :
    (generateEntryFromEvent i1 ev defaults ctx allowed).map eraseId =
    (generateEntryFromEvent i2 ev defaults ctx allowed).map eraseId := by
  obtain ⟨d, act, amt, cur, cp, it, ea, raw⟩ := ev
  cases act with
  | none => cases amt <;> rfl
  | some a =>
    cases amt with
    | none => rfl
    | some m =>
      dsimp only [generateEntryFromEvent]
      split_ifs <;> rfl

lemma genFold_eraseId (s1 s2 : ℕ → String) (defaults : ComposerDefaults)
    (allowed : Option (AList String)) (evs : List ParsedEvent) :
    ∀ (c : DCtx) (n : ℕ) (acc1 acc2 : List JournalEntry),
      acc1.map eraseId = acc2.map eraseId →
      (evs.foldl (genStep s1 defaults allowed) (c, n, acc1)).1 =
        (evs.foldl (genStep s2 defaults allowed) (c, n, acc2)).1 ∧
      (evs.foldl (genStep s1 defaults allowed) (c, n, acc1)).2.1 =
        (evs.foldl (genStep s2 defaults allowed) (c, n, acc2)).2.1 ∧
      (evs.foldl (genStep s1 defaults allowed) (c, n, acc1)).2.2.map eraseId =
        (evs.foldl (genStep s2 defaults allowed) (c, n, acc2)).2.2.map eraseId := by
  induction evs with
  | nil => intro c n acc1 acc2 hacc; exact ⟨rfl, rfl, hacc⟩
  | cons ev evs ih =>
    intro c n acc1 acc2 hacc
    rw [List.foldl_cons, List.foldl_cons]
    have hfx := genEntry_eraseId (s1 n) (s2 n) ev defaults
      ⟨ev.dateISO.getD c.dateISO, ev.currency.getD c.currency⟩ allowed
    cases hx1 : generateEntryFromEvent (s1 n) ev defaults
        ⟨ev.dateISO.getD c.dateISO, ev.currency.getD c.currency⟩ allowed with
    | none =>
      cases hx2 : generateEntryFromEvent (s2 n) ev defaults
          ⟨ev.dateISO.getD c.dateISO, ev.currency.getD c.currency⟩ allowed with
      | none =>
        simp only [genStep, hx1, hx2]
        exact ih _ n acc1 acc2 hacc
      | some e2 => rw [hx1, hx2] at hfx; simp at hfx
    | some e1 =>
      cases hx2 : generateEntryFromEvent (s2 n) ev defaults
          ⟨ev.dateISO.getD c.dateISO, ev.currency.getD c.currency⟩ allowed with
      | none => rw [hx1, hx2] at hfx; simp at hfx
      | some e2 =>
        rw [hx1, hx2] at hfx
        have he : eraseId e1 = eraseId e2 := by simpa using hfx
        simp only [genStep, hx1, hx2]
        refine ih _ (n + 1) (acc1 ++ [e1]) (acc2 ++ [e2]) ?_
        simp only [List.map_append, List.map_cons, List.map_nil, hacc, he]

lemma genText_eraseId (now : CivilDate) (s1 s2 : ℕ → String) (text : String)
    (defaults : ComposerDefaults) (allowed : Option (List String)) :
    (generateEntriesFromText now s1 text defaults allowed).events =
      (generateEntriesFromText now s2 text defaults allowed).events ∧
    (generateEntriesFromText now s1 text defaults allowed).entries.map eraseId =
      (generateEntriesFromText now s2 text defaults allowed).entries.map eraseId := by
  refine ⟨rfl, ?_⟩
  unfold generateEntriesFromText
  dsimp only
  exact (genFold_eraseId s1 s2 defaults _ (extractEventsWithContext now text)
    ⟨(parseAnyDate now text).getD (todayISO now),
      (parseCurrency text).getD defaults.currency⟩ 0 [] [] rfl).2.2

/-- C9 (amended): each core pipeline stage is a pure function of its
explicit inputs, and once the current date is pinned the only remaining
nondeterminism is the `makeId` (Math.random) id source: with the id
supply abstracted, the extracted events, the schedule-generator output
and the synthesizer output are independent of the supply after erasing
the generated `id` fields, and balance computation and consolidation
take no id source at all. -/
theorem C9_determinism_up_to_ids :
    (∀ (now : CivilDate) (text : String),
      extractEventsWithContext now text = extractEventsWithContext now text) ∧
    (∀ (s1 s2 : ℕ → String) (period entityId : String)
        (saved : List JournalEntry) (schedules : SchedulesState),
      (generateScheduledEntriesForPeriod s1 period entityId saved
          schedules).map eraseId =
        (generateScheduledEntriesForPeriod s2 period entityId saved
          schedules).map eraseId) ∧
    (∀ (now : CivilDate) (s1 s2 : ℕ → String) (text : String)
        (defaults : ComposerDefaults) (allowed : Option (List String)),
      (generateEntriesFromText now s1 text defaults allowed).events =
        (generateEntriesFromText now s2 text defaults allowed).events ∧
      (generateEntriesFromText now s1 text defaults allowed).entries.map eraseId =
        (generateEntriesFromText now s2 text defaults allowed).entries.map eraseId) ∧
    (∀ (accounts : List Account) (entries : List JournalEntry),
      computeBalances accounts entries = computeBalances accounts entries) ∧
    (∀ p : ConsolidateParams, consolidateGroup p = consolidateGroup p) :=
  ⟨fun _ _ => rfl, genSched_eraseId,
    fun now s1 s2 text defaults allowed =>
      genText_eraseId now s1 s2 text defaults allowed,
    fun _ _ => rfl, fun _ => rfl⟩

-- ---------------------------------------------------------------------------
-- Concrete runs: a schedule, its generated entry, and resolver inputs
-- ---------------------------------------------------------------------------

def asset1 : AssetSchedule :=
  ⟨"A1", "E1", "Truck", Currency.AED, "Equipment", "Accumulated Depreciation",
    "Depreciation Expense", "2025-01", 1200, Option.none, 12,
    DepreciationMethod.straight_line_monthly, true⟩

/-- The depreciation entry `assetStep` emits for `asset1` in 2025-03
(id pinned to "x"): 1200 / 12 = 100 a month. -/
def jeDep1 : JournalEntry :=
  ⟨"x", "2025-03-28", "Depreciation • Truck [AUTO:DEP:A1:2025-03]", Currency.AED,
    "E1", Option.none,
    [⟨"Depreciation Expense", 100, 0⟩, ⟨"Accumulated Depreciation", 0, 100⟩]⟩

section DecideFriendly3

set_option maxRecDepth 100000

attribute [local semireducible] Rat.mul Rat.add Rat.sub Rat.inv

theorem C8_schedule_dedupe_witness :
    assetStep "2025-03" "E1" ["Depreciation • Truck [AUTO:DEP:A1:2025-03]"]
      "x" asset1 = none ∧
    strIncludes jeDep1.memo (scheduleMarker "DEP" asset1.id "2025-03") = true :=
  ⟨C8_schedule_dedupe.2.2.2.1 "2025-03" "E1"
      ["Depreciation • Truck [AUTO:DEP:A1:2025-03]"] "x" asset1 (by decide),
    C8_schedule_dedupe.2.1 "2025-03" "E1" [] "x" asset1 jeDep1 (by decide)⟩

/-- C9 counterexample to the frozen wording: pinning only the current
date does not make runs bit-identical — the schedule generator on
identical schedule inputs but two admissible `makeId` outcomes ("r1"
vs "r2", standing for two Math.random draws) produces different
entries (the generated ids differ). -/
theorem C9_random_ids_counterexample :
    generateScheduledEntriesForPeriod (fun _ => "r1") "2025-03" "E1" []
        ⟨[asset1], []⟩ ≠
      generateScheduledEntriesForPeriod (fun _ => "r2") "2025-03" "E1" []
        ⟨[asset1], []⟩ := by
  decide

/-- C4 counterexample to the frozen wording of step (3): a pure-debit
line ("Office Supplies Abc", 5 Dr) under the similarity threshold
against a chart with no "Purchases / Expense" or "Purchases" account is
NOT rewritten to a default expense account — it is left unchanged and
reported unresolved. -/
theorem C4_fallback_counterexample :
    (resolveClosestAccounts
        [⟨"e1", "2025-01-01", "m", Currency.AED, "E1", Option.none,
          [⟨"Office Supplies Abc", 5, 0⟩]⟩]
        [⟨"c1", "Cash", NormalSide.debit, 0⟩] Option.none).unresolved =
      ["Office Supplies Abc"] ∧
    (resolveClosestAccounts
        [⟨"e1", "2025-01-01", "m", Currency.AED, "E1", Option.none,
          [⟨"Office Supplies Abc", 5, 0⟩]⟩]
        [⟨"c1", "Cash", NormalSide.debit, 0⟩] Option.none).entries =
      [⟨"e1", "2025-01-01", "m", Currency.AED, "E1", Option.none,
        [⟨"Office Supplies Abc", 5, 0⟩]⟩] := by
  refine ⟨by decide, by decide⟩

theorem C4_resolution_order_witness :
    resolveLine [⟨"c1", "Cash", NormalSide.debit, 0⟩] (72 / 100) ([], [])
        ⟨"cash ", 5, 0⟩ =
      (⟨"Cash", 5, 0⟩, ([], [])) :=
  C4_resolution_order.1 [⟨"c1", "Cash", NormalSide.debit, 0⟩] (72 / 100)
    ([], []) ⟨"cash ", 5, 0⟩ "Cash" (by decide)

end DecideFriendly3

end AccCopilot
